import Mathlib

/-!
Verification of the stampede tool-bridge subsystem: a shallow embedding of
the tool registry, execution-token service, tool-bridge protocol
(authorization, rate limiting, dispatch) and the orchestrator's trace
parser, with theorems checking the specification's claims against it.

Conventions of the embedding:
* JavaScript strings are Lean `String`s, arrays are `List`s, `Map`s are
  association lists with overwrite-on-insert.
* `Date.now()` readings are explicit `Nat` parameters (milliseconds).
* JSON values are the inductive `JValue`; numbers are modelled on the
  integer fragment (every number appearing in the marker protocol is an
  integer millisecond count).
* Fallible code returns `Option` or `Except`; a JavaScript `throw` of an
  `Error` with message `m` is `Except.error m`.
-/

namespace Stampede

/-- JSON values as produced by JSON.parse, with numbers restricted to the
integer fragment used by the marker protocol. -/
inductive JValue where
  | null : JValue
  | bool : Bool → JValue
  | num : Int → JValue
  | str : String → JValue
  | arr : List JValue → JValue
  | obj : List (String × JValue) → JValue

/-- ExecutionContext from core/types: the identity/session/scope bundle of one
code execution. `metadata` is a JSON-like record. -/
structure ExecutionContext where
  userId : String
  sessionId : String
  organizationId : Option String := none
  scopes : List String
  metadata : Option (List (String × JValue)) := none

/-- BaseToolBridgeProtocol.checkAuthorization (tool-bridge-protocol.ts):
true when no scopes are required or a wildcard is required, otherwise when
some required scope is held by the context or the context holds the
wildcard. -/
def checkAuthorization (context : ExecutionContext) (requiredScopes : List String) : Bool :=
  if requiredScopes.length == 0 || requiredScopes.contains "*" then
    true
  else
    requiredScopes.any fun scope =>
      context.scopes.contains scope || context.scopes.contains "*"

/-- The scope test of the tRPC router's requireScopes middleware
(providers/protocol/trpc/server.ts): `hasScope` computed over the context's
scopes (defaulted to [] when the context is absent). -/
def requireScopesCheck (userScopes : List String) (requiredScopes : List String) : Bool :=
  requiredScopes.any fun scope =>
    userScopes.contains scope || userScopes.contains "*" || scope == "*"

/-- The authorization formula as the specification states it: `authorize` is
true iff the required set is empty, contains the wildcard, the context's
scopes contain the wildcard, or the two sets intersect. This definition
follows the spec's words, to be compared with the code's two checks. -/
def authorizeSpecFormula (scopes requiredScopes : List String) : Prop :=
  requiredScopes = [] ∨ "*" ∈ requiredScopes ∨ "*" ∈ scopes ∨
    ∃ s, s ∈ scopes ∧ s ∈ requiredScopes

/-!
## Execution token service

`utils/token.ts` signs a JWT (HS256 via the jose library) holding the
context's fields, with issued-at and expiry claims and an audience; the
tRPC protocol (`TRPCToolBridgeProtocol`) carries its own copy with a
different default audience. The jose calls are modelled by their
documented semantics: signing records the payload, the key and the
audience; verification succeeds exactly when the signature key matches,
the audience matches, and the current time is strictly before the expiry
claim, and any failure is reported uniformly (the TypeScript wrappers
catch every jwtVerify exception and return null).
-/

/-- TokenConfig from core/types: signing secret with optional expiration
seconds and audience. -/
structure TokenConfig where
  secretKey : String
  expirationSeconds : Option Nat := none
  audience : Option String := none

/-- A signed JWT as produced by SignJWT: the claims set plus the key it was
signed with (verification against a key succeeds iff the keys agree). -/
structure SignedPayload where
  context : ExecutionContext
  issuedAt : Nat
  expiresAt : Nat
  audience : String
  signedWith : String

/-- A string handed to verification: either a well-formed signed token or
any other string (malformed). -/
inductive TokenString where
  | signed : SignedPayload → TokenString
  | malformed : String → TokenString

/-- createExecutionToken (utils/token.ts): expiry is now plus
expirationSeconds (default 300), audience defaults to "tool-bridge",
signed with the configured secret. -/
def createExecutionToken (config : TokenConfig) (context : ExecutionContext) (now : Nat) :
    TokenString :=
  .signed
    { context := context
      issuedAt := now
      expiresAt := now + config.expirationSeconds.getD 300
      audience := config.audience.getD "tool-bridge"
      signedWith := config.secretKey }

/-- verifyExecutionToken (utils/token.ts): jwtVerify against the configured
secret and audience (default "tool-bridge"); every failure — malformed
token, signature mismatch, audience mismatch, expired — returns none. -/
def verifyExecutionToken (config : TokenConfig) (token : TokenString) (now : Nat) :
    Option ExecutionContext :=
  match token with
  | .malformed _ => none
  | .signed p =>
      if p.signedWith == config.secretKey
          && p.audience == config.audience.getD "tool-bridge"
          && decide (now < p.expiresAt) then
        some p.context
      else
        none

/-- ToolBridgeConfig from core/types: the bridge's server URL, token
configuration, and rate-limiting switches. An absent enableRateLimiting
flag behaves as false in dispatch (only truthiness is consulted). -/
structure ToolBridgeConfig where
  serverUrl : String := ""
  tokenConfig : TokenConfig
  enableRateLimiting : Bool := false
  defaultRateLimit : Option Nat := none

/-- TRPCToolBridgeProtocol.createExecutionToken: same signing as the
utility, but the default audience is "tool-bridge-trpc". -/
def trpcCreateExecutionToken (config : ToolBridgeConfig) (context : ExecutionContext)
    (now : Nat) : TokenString :=
  .signed
    { context := context
      issuedAt := now
      expiresAt := now + config.tokenConfig.expirationSeconds.getD 300
      audience := config.tokenConfig.audience.getD "tool-bridge-trpc"
      signedWith := config.tokenConfig.secretKey }

/-- TRPCToolBridgeProtocol.verifyExecutionToken: none when the protocol is
uninitialized (config null); otherwise jwtVerify with default audience
"tool-bridge-trpc", every failure returning none. -/
def trpcVerifyExecutionToken (config : Option ToolBridgeConfig) (token : TokenString)
    (now : Nat) : Option ExecutionContext :=
  match config with
  | none => none
  | some c =>
      match token with
      | .malformed _ => none
      | .signed p =>
          if p.signedWith == c.tokenConfig.secretKey
              && p.audience == c.tokenConfig.audience.getD "tool-bridge-trpc"
              && decide (now < p.expiresAt) then
            some p.context
          else
            none

/-!
## Rate limiting

`BaseToolBridgeProtocol.checkRateLimit` and the identical module-level
`checkRateLimit` of the tRPC server keep a `Map` from `"rate:" ++ userId`
to a count and a window reset time. The map is an association list with
overwrite-on-insert; `Date.now()` is the explicit `now` argument;
`remaining` is an `Int` because the JavaScript subtraction can go
negative (`maxPerMinute - 1` when `maxPerMinute = 0`). -/

/-- Association-list lookup, the `Map.get` of the embedding. -/
def assocGet {α β : Type} [BEq α] (m : List (α × β)) (k : α) : Option β :=
  (m.find? fun p => p.1 == k).map (·.2)

/-- Association-list overwrite-insert, the `Map.set` of the embedding. -/
def assocSet {α β : Type} [BEq α] : List (α × β) → α → β → List (α × β)
  | [], k, v => [(k, v)]
  | (k₀, v₀) :: rest, k, v =>
      if k₀ == k then (k, v) :: rest else (k₀, v₀) :: assocSet rest k v

/-- One entry of the rate-limit store: request count and window reset time
in milliseconds. -/
structure RateEntry where
  count : Nat
  resetTime : Nat
  deriving DecidableEq, Repr

/-- The process-wide rate-limit store. -/
abbrev RateStore := List (String × RateEntry)

/-- Result triple of checkRateLimit. -/
structure RateCheckResult where
  allowed : Bool
  remaining : Int
  resetIn : Nat
  deriving DecidableEq, Repr

/-- checkRateLimit (tool-bridge-protocol.ts and the identical copy in
providers/protocol/trpc/server.ts): lazily opens a fresh 60-second window
when the entry is absent or `now` is past the reset time, denies without
mutation when the count has reached the limit, otherwise increments.
`Math.ceil ((resetTime - now) / 1000)` is the rounded-up Nat division. -/
def checkRateLimit (store : RateStore) (userId : String) (maxPerMinute : Nat) (now : Nat) :
    RateCheckResult × RateStore :=
  let key := "rate:" ++ userId
  match assocGet store key with
  | none =>
      (⟨true, (maxPerMinute : Int) - 1, 60⟩, assocSet store key ⟨1, now + 60000⟩)
  | some entry =>
      if now > entry.resetTime then
        (⟨true, (maxPerMinute : Int) - 1, 60⟩, assocSet store key ⟨1, now + 60000⟩)
      else if entry.count ≥ maxPerMinute then
        (⟨false, 0, (entry.resetTime - now + 999) / 1000⟩, store)
      else
        (⟨true, (maxPerMinute : Int) - (entry.count + 1), (entry.resetTime - now + 999) / 1000⟩,
          assocSet store key ⟨entry.count + 1, entry.resetTime⟩)

/-- A sequence of checkRateLimit calls for one user at the given times,
returning the per-call results and the final store. -/
def rateCalls (uid : String) (maxPerMinute : Nat) :
    RateStore → List Nat → List RateCheckResult × RateStore
  | store, [] => ([], store)
  | store, t :: ts =>
      let p := checkRateLimit store uid maxPerMinute t
      let q := rateCalls uid maxPerMinute p.2 ts
      (p.1 :: q.1, q.2)

/-- The expected result list for a run of in-window allowed calls: starting
from count `k` in a window resetting at `r`, with limit `n`. A proof
artifact used to state the rate-limit window theorem. -/
def expectedAllowed (n r : Nat) : Nat → List Nat → List RateCheckResult
  | _, [] => []
  | k, t :: ts =>
      ⟨true, (n : Int) - (k + 1), (r - t + 999) / 1000⟩ :: expectedAllowed n r (k + 1) ts

/-!
## Tool registry

`createToolRegistry` (tool-registry.ts) owns the tool map and
`executeTool`, which validates input with the tool's zod schema, runs the
executor, and — when output validation is on and an output schema exists —
validates the result, logging but not rejecting a mismatch. A zod schema is
embedded as its `parse` behaviour: either a parsed value or a `ZodError`
issue list (path and message per issue). Executors are arbitrary host
functions that may throw (`Except.error` with the error's message). -/

/-- One issue of a ZodError: a path into the value and a message. -/
structure ZodIssue where
  path : List String
  message : String

/-- A zod schema, embedded by its runtime parse behaviour. -/
structure Schema where
  parse : JValue → Except (List ZodIssue) JValue

/-- ToolDefinition from core/types. `run` is the host-supplied executor. -/
structure ToolDefinition where
  name : String
  description : String := ""
  inputSchema : Schema
  outputSchema : Option Schema := none
  requiredScopes : Option (List String) := none
  rateLimit : Option Nat := none
  run : JValue → ExecutionContext → Except String JValue

/-- The tool registry: its map of tools (insertion order kept) and the
validateOutputs option fixed at creation (default true). -/
structure ToolRegistry where
  tools : List ToolDefinition
  validateOutputs : Bool := true

/-- Registry lookup by name (`tools.get`). -/
def ToolRegistry.get (reg : ToolRegistry) (name : String) : Option ToolDefinition :=
  reg.tools.find? fun t => t.name == name

/-- The per-field detail string of the invalid-input error: each issue as
`path.join(".") ++ ": " ++ message`, comma-joined. -/
def issueDetails (issues : List ZodIssue) : String :=
  String.intercalate ", "
    (issues.map fun i => String.intercalate "." i.path ++ ": " ++ i.message)

/-- What one registry.executeTool call produces: a result or a thrown error
message, plus the error-level log lines it emitted. -/
structure ExecOutcome where
  result : Except String JValue
  logs : List String

/-- executeTool (tool-registry.ts): throws on unknown tool; throws the
invalid-input message built from the ZodError issues when input validation
fails; otherwise runs the executor on the validated input and the context
(executor throws propagate); then, when validateOutputs is on and an output
schema exists, a result failing that schema is logged and the raw result
returned, while a passing result is returned as parsed. -/
def ToolRegistry.executeTool (reg : ToolRegistry) (name : String) (input : JValue)
    (context : ExecutionContext) : ExecOutcome :=
  match reg.get name with
  | none => ⟨.error ("Unknown tool: " ++ name), []⟩
  | some tool =>
      match tool.inputSchema.parse input with
      | .error issues =>
          ⟨.error ("Invalid input for tool '" ++ name ++ "': " ++ issueDetails issues), []⟩
      | .ok validated =>
          match tool.run validated context with
          | .error e => ⟨.error e, []⟩
          | .ok result =>
              match reg.validateOutputs, tool.outputSchema with
              | true, some outSchema =>
                  match outSchema.parse result with
                  | .ok parsed => ⟨.ok parsed, []⟩
                  | .error _ =>
                      ⟨.ok result, ["Tool '" ++ name ++ "' returned invalid output"]⟩
              | _, _ => ⟨.ok result, []⟩

/-!
## Dispatch

`BaseToolBridgeProtocol.executeToolWithChecks`: lookup, authorization, rate
limiting, then delegation to registry.executeTool with every thrown error
wrapped as EXECUTION_ERROR. `now` is the `Date.now()` reading at entry
(`startTime`, also used by the rate-limit check) and `tEnd` the reading at
the returning branch, so `executionTimeMs = tEnd - now`. The updated
rate-limit store is returned alongside the result. -/

/-- ToolBridgeResult: success flag, optional result, optional
error (code, message) pair, and the measured execution time. -/
structure ToolBridgeResult where
  success : Bool
  result : Option JValue := none
  error : Option (String × String) := none
  executionTimeMs : Nat

/-- The protocol instance's mutable state: config and registry (null until
initialize) and the rate-limit store. -/
structure BridgeState where
  config : Option ToolBridgeConfig := none
  registry : Option ToolRegistry := none
  rateLimitStore : RateStore := []

/-- The final try/catch of executeToolWithChecks around
registry.executeTool: a thrown error becomes an EXECUTION_ERROR result with
the original message; a value becomes a success result. -/
def dispatchExecute (registry : ToolRegistry) (toolName : String) (input : JValue)
    (context : ExecutionContext) (tEnd now : Nat) : ToolBridgeResult :=
  match (registry.executeTool toolName input context).result with
  | .ok v => ⟨true, some v, none, tEnd - now⟩
  | .error e => ⟨false, none, some ("EXECUTION_ERROR", e), tEnd - now⟩

/-- executeToolWithChecks (tool-bridge-protocol.ts). -/
def executeToolWithChecks (st : BridgeState) (toolName : String) (input : JValue)
    (context : ExecutionContext) (now tEnd : Nat) : ToolBridgeResult × RateStore :=
  match st.registry with
  | none =>
      (⟨false, none, some ("NOT_INITIALIZED", "Protocol not initialized"), tEnd - now⟩,
        st.rateLimitStore)
  | some registry =>
      match registry.get toolName with
      | none =>
          (⟨false, none, some ("NOT_FOUND", "Unknown tool: " ++ toolName), tEnd - now⟩,
            st.rateLimitStore)
      | some tool =>
          let requiredScopes := tool.requiredScopes.getD []
          if ¬ checkAuthorization context requiredScopes then
            (⟨false, none,
              some ("FORBIDDEN",
                "Missing required scope. Required: " ++
                  String.intercalate " or " requiredScopes),
              tEnd - now⟩, st.rateLimitStore)
          else
            match st.config with
            | some cfg =>
                if cfg.enableRateLimiting then
                  let limit := tool.rateLimit.getD (cfg.defaultRateLimit.getD 60)
                  let rateCheck := checkRateLimit st.rateLimitStore context.userId limit now
                  if ¬ rateCheck.1.allowed then
                    (⟨false, none,
                      some ("RATE_LIMITED",
                        "Rate limit exceeded. Try again in " ++
                          toString rateCheck.1.resetIn ++ " seconds"),
                      tEnd - now⟩, rateCheck.2)
                  else
                    (dispatchExecute registry toolName input context tEnd now, rateCheck.2)
                else
                  (dispatchExecute registry toolName input context tEnd now, st.rateLimitStore)
            | none =>
                (dispatchExecute registry toolName input context tEnd now, st.rateLimitStore)

/-!
## Schema adapter: zodToTypeString

Two copies of the registry exist in the repository (packages/code-mode and
packages/stampede). Both branch on the runtime kind of a zod schema; the
code-mode copy guards its access to the Zod 4 enum/literal internals
(falling back to "string" / "unknown"), while the stampede copy reads
`_def.entries` and `_def.values` directly — the library constructs every
ZodEnum with an entries record and every ZodLiteral with a values array,
which the embedding records in the constructors' types. A schema kind the
generator does not recognize is the `other` constructor. -/

/-- A zod literal value: string, number or boolean. -/
inductive LitVal where
  | s : String → LitVal
  | n : Int → LitVal
  | b : Bool → LitVal

/-- How both copies render one literal value:
quoted when a string, otherwise `String(value)`. -/
def renderLit : LitVal → String
  | .s v => "\"" ++ v ++ "\""
  | .n v => toString v
  | .b v => if v then "true" else "false"

/-- The runtime kinds of zod schema the generators branch on, plus `other`
for every unrecognized kind (carrying only its kind name). -/
inductive ZodSchema where
  | object : List (String × ZodSchema) → ZodSchema
  | string : ZodSchema
  | number : ZodSchema
  | boolean : ZodSchema
  | array : ZodSchema → ZodSchema
  | optional : ZodSchema → ZodSchema
  | nullable : ZodSchema → ZodSchema
  | record : ZodSchema
  | enumOf : List (String × String) → ZodSchema
  | literal : List LitVal → ZodSchema
  | union : List ZodSchema → ZodSchema
  | other : String → ZodSchema

mutual

/-- zodToTypeString, code-mode copy (guarded Zod 4 internals access). -/
def zodToTypeString : ZodSchema → String → String
  | .object _, typeName => typeName
  | .string, _ => "string"
  | .number, _ => "number"
  | .boolean, _ => "boolean"
  | .array el, _ => zodToTypeString el "Element" ++ "[]"
  | .optional inner, typeName => zodToTypeString inner typeName ++ " | undefined"
  | .nullable inner, typeName => zodToTypeString inner typeName ++ " | null"
  | .record, _ => "Record<string, unknown>"
  | .enumOf entries, _ =>
      String.intercalate " | " (entries.map fun e => "\"" ++ e.2 ++ "\"")
  | .literal [], _ => "unknown"
  | .literal [v], _ => renderLit v
  | .literal (v₁ :: v₂ :: vs), _ =>
      String.intercalate " | " ((v₁ :: v₂ :: vs).map renderLit)
  | .union opts, typeName => String.intercalate " | " (unionParts opts typeName 0)
  | .other _, typeName => typeName

/-- The indexed branch names of a union type for the code-mode copy. -/
def unionParts : List ZodSchema → String → Nat → List String
  | [], _, _ => []
  | s :: rest, typeName, i =>
      zodToTypeString s (typeName ++ toString i) :: unionParts rest typeName (i + 1)

end

mutual

/-- zodToTypeString, stampede copy: identical branching, but it reads
`_def.entries` / `_def.values` without a guard; an empty literal values
array falls to `String(undefined)`. -/
def zodToTypeStringB : ZodSchema → String → String
  | .object _, typeName => typeName
  | .string, _ => "string"
  | .number, _ => "number"
  | .boolean, _ => "boolean"
  | .array el, _ => zodToTypeStringB el "Element" ++ "[]"
  | .optional inner, typeName => zodToTypeStringB inner typeName ++ " | undefined"
  | .nullable inner, typeName => zodToTypeStringB inner typeName ++ " | null"
  | .record, _ => "Record<string, unknown>"
  | .enumOf entries, _ =>
      String.intercalate " | " (entries.map fun e => "\"" ++ e.2 ++ "\"")
  | .literal [], _ => "undefined"
  | .literal (v :: _), _ => renderLit v
  | .union opts, typeName => String.intercalate " | " (unionPartsB opts typeName 0)
  | .other _, typeName => typeName

/-- The indexed branch names of a union type for the stampede copy. -/
def unionPartsB : List ZodSchema → String → Nat → List String
  | [], _, _ => []
  | s :: rest, typeName, i =>
      zodToTypeStringB s (typeName ++ toString i) :: unionPartsB rest typeName (i + 1)

end

/-!
## Trace parsing: parseToolCallsFromOutput (code-mode.ts)

The orchestrator splits the sandbox output on newlines and matches each
line against the three marker regexes
`\[TOOL_CALL:(\w+)\]\s*(.*)`, `\[TOOL_RESULT:(\w+)\]\s*(.*)` and
`\[TOOL_ERROR:(\w+)\]\s*(.*)` in that order (an unanchored
leftmost-first search: the tag literal, a nonempty run of word characters,
a closing bracket, skipped whitespace, then the rest of the line). The
JSON suffix goes through JSON.parse; records are kept in an array and a
by-tool-name map aliasing into it (here: indices into the list). String
splitting, trimming and joining are defined directly on character lists so
concrete runs reduce definitionally. -/

/-- JavaScript `output.split("\n")` helper: accumulates the current line
reversed. -/
def splitLinesAux : List Char → List Char → List String
  | [], acc => [String.mk acc.reverse]
  | c :: cs, acc =>
      if c = '\n' then String.mk acc.reverse :: splitLinesAux cs []
      else splitLinesAux cs (c :: acc)

/-- JavaScript `output.split("\n")`. -/
def splitLines (s : String) : List String :=
  splitLinesAux s.data []

/-- JavaScript `String.prototype.trim`. -/
def trimString (s : String) : String :=
  String.mk (((s.data.dropWhile Char.isWhitespace).reverse.dropWhile Char.isWhitespace).reverse)

/-- `lines.join("\n")`. -/
def joinNL : List String → String
  | [] => ""
  | [l] => l
  | l :: rest => l ++ "\n" ++ joinNL rest

/-- A `\w` character of the marker regexes (ASCII letter, digit or
underscore). -/
def wordChar (c : Char) : Bool :=
  c.isAlpha || c.isDigit || c = '_'

/-- Strips an expected literal prefix. -/
def stripLit : List Char → List Char → Option (List Char)
  | [], rest => some rest
  | _, [] => none
  | t :: ts, c :: cs => if c = t then stripLit ts cs else none

/-- Tries the marker regex anchored at the current position: the tag
literal `[TAG:`, a nonempty word-character run, `]`, then `\s*` and the
captured rest of the line. -/
def matchMarkerAt (tag : List Char) (cs : List Char) : Option (String × String) :=
  match stripLit tag cs with
  | none => none
  | some rest =>
      let w := rest.takeWhile wordChar
      match w, rest.dropWhile wordChar with
      | _ :: _, ']' :: rest₂ =>
          some (String.mk w, String.mk (rest₂.dropWhile Char.isWhitespace))
      | _, _ => none

/-- The unanchored leftmost-first regex search over the line. -/
def findMarker (tag : List Char) : List Char → Option (String × String)
  | [] => none
  | c :: cs =>
      match matchMarkerAt tag (c :: cs) with
      | some r => some r
      | none => findMarker tag cs

/-- `line.match(/\[TOOL_CALL:(\w+)\]\s*(.*)/)` as (tool name, JSON suffix). -/
def matchToolCall (line : String) : Option (String × String) :=
  findMarker "[TOOL_CALL:".data line.data

/-- `line.match(/\[TOOL_RESULT:(\w+)\]\s*(.*)/)` as (tool name, JSON suffix). -/
def matchToolResult (line : String) : Option (String × String) :=
  findMarker "[TOOL_RESULT:".data line.data

/-- `line.match(/\[TOOL_ERROR:(\w+)\]\s*(.*)/)` as (tool name, JSON suffix). -/
def matchToolError (line : String) : Option (String × String) :=
  findMarker "[TOOL_ERROR:".data line.data

/-- Whether the line matches any of the three marker regexes (such a line is
never kept in the clean output, whatever its JSON suffix holds). -/
def isMarkerLine (line : String) : Bool :=
  (matchToolCall line).isSome || (matchToolResult line).isSome ||
    (matchToolError line).isSome

/-- JSON whitespace. -/
def jsonWs (c : Char) : Bool :=
  c = ' ' || c = '\t' || c = '\n' || c = '\r'

/-- One escape of a JSON string body. -/
def jsonEscape (c : Char) : Option Char :=
  if c = '"' then some '"'
  else if c = '\\' then some '\\'
  else if c = '/' then some '/'
  else if c = 'n' then some '\n'
  else if c = 'r' then some '\r'
  else if c = 't' then some '\t'
  else if c = 'b' then some (Char.ofNat 8)
  else if c = 'f' then some (Char.ofNat 12)
  else none

/-- Parses a JSON string body after the opening quote, returning the body
and the remainder after the closing quote. -/
def jsonString : List Char → Option (String × List Char)
  | [] => none
  | c :: cs =>
      if c = '"' then some ("", cs)
      else if c = '\\' then
        match cs with
        | [] => none
        | e :: cs₂ =>
            match jsonEscape e with
            | none => none
            | some d =>
                match jsonString cs₂ with
                | none => none
                | some (s, rest) => some (String.mk (d :: s.data), rest)
      else
        match jsonString cs with
        | none => none
        | some (s, rest) => some (String.mk (c :: s.data), rest)

/-- Parses a nonempty digit run as a Nat, returning the remainder. -/
def jsonDigits : List Char → Option (Nat × List Char)
  | cs =>
      let ds := cs.takeWhile Char.isDigit
      match ds with
      | [] => none
      | _ =>
          some (ds.foldl (fun n c => n * 10 + (c.toNat - 48)) 0, cs.dropWhile Char.isDigit)

mutual

/-- The JSON value grammar (integer-fragment numbers), with fuel for
termination; parses one value and returns the remainder. -/
def jsonValue (fuel : Nat) (cs : List Char) : Option (JValue × List Char) :=
  match fuel with
  | 0 => none
  | fuel + 1 =>
      match cs.dropWhile jsonWs with
      | [] => none
      | c :: rest =>
          if c = '"' then
            match jsonString rest with
            | none => none
            | some (s, rest₂) => some (.str s, rest₂)
          else if c = '{' then
            jsonMembers fuel (rest.dropWhile jsonWs) true
          else if c = '[' then
            jsonElements fuel (rest.dropWhile jsonWs) true
          else if c = 't' then
            (stripLit "rue".data rest).map fun rest₂ => (.bool true, rest₂)
          else if c = 'f' then
            (stripLit "alse".data rest).map fun rest₂ => (.bool false, rest₂)
          else if c = 'n' then
            (stripLit "ull".data rest).map fun rest₂ => (.null, rest₂)
          else if c = '-' then
            (jsonDigits rest).map fun p => (.num (-(p.1 : Int)), p.2)
          else if c.isDigit then
            (jsonDigits (c :: rest)).map fun p => (.num (p.1 : Int), p.2)
          else
            none

/-- Object members after `{` (first=true allows an immediate `}`). -/
def jsonMembers (fuel : Nat) (cs : List Char) (first : Bool) : Option (JValue × List Char) :=
  match fuel with
  | 0 => none
  | fuel + 1 =>
      match cs with
      | '}' :: rest => if first then some (.obj [], rest) else none
      | '"' :: rest =>
          match jsonString rest with
          | none => none
          | some (k, rest₂) =>
              match rest₂.dropWhile jsonWs with
              | ':' :: rest₃ =>
                  match jsonValue fuel rest₃ with
                  | none => none
                  | some (v, rest₄) =>
                      match rest₄.dropWhile jsonWs with
                      | ',' :: rest₅ =>
                          match jsonMembers fuel (rest₅.dropWhile jsonWs) false with
                          | some (.obj fields, rest₆) => some (.obj ((k, v) :: fields), rest₆)
                          | _ => none
                      | '}' :: rest₅ => some (.obj [(k, v)], rest₅)
                      | _ => none
              | _ => none
      | _ => none

/-- Array elements after `[` (first=true allows an immediate `]`). -/
def jsonElements (fuel : Nat) (cs : List Char) (first : Bool) : Option (JValue × List Char) :=
  match fuel with
  | 0 => none
  | fuel + 1 =>
      match cs with
      | ']' :: rest => if first then some (.arr [], rest) else none
      | _ =>
          match jsonValue fuel cs with
          | none => none
          | some (v, rest) =>
              match rest.dropWhile jsonWs with
              | ',' :: rest₂ =>
                  match jsonElements fuel (rest₂.dropWhile jsonWs) false with
                  | some (.arr vs, rest₃) => some (.arr (v :: vs), rest₃)
                  | _ => none
              | ']' :: rest₂ => some (.arr [v], rest₂)
              | _ => none

end

/-- JSON.parse on the marker suffix: one value, with only whitespace
allowed after it. Fails (returns none) on anything else, as JSON.parse
throws. Numbers cover the integer fragment the marker protocol emits. -/
def jsonParse (s : String) : Option JValue :=
  match jsonValue (s.data.length + 1) s.data with
  | some (v, rest) => if (rest.dropWhile jsonWs).isEmpty then some v else none
  | none => none

/-- A JavaScript-falsy JSON value (`undefined` is handled at the Option
level by jsOrZero). -/
def jsFalsy : JValue → Bool
  | .null => true
  | .bool b => !b
  | .num n => n == 0
  | .str s => s.isEmpty
  | _ => false

/-- Field access `v.key` on a parsed JSON value: none (undefined) unless
`v` is an object holding the key. -/
def objField (v : JValue) (key : String) : Option JValue :=
  match v with
  | .obj fields => (fields.find? fun p => p.1 == key).map (·.2)
  | _ => none

/-- JavaScript `x || 0` over a possibly-undefined field value. -/
def jsOrZero (v : Option JValue) : JValue :=
  match v with
  | none => .num 0
  | some v => if jsFalsy v then .num 0 else v

/-- ToolCallRecord as built by the parser: a call marker creates it with
output null, duration 0, success false; result/error markers mutate it in
place. The defaults are the creation-time fields. -/
structure ToolCallRecord where
  tool : String
  input : JValue
  output : Option JValue := none
  durationMs : JValue := .num 0
  success : Bool := false
  error : Option JValue := none

/-- In-place update of the record array at one index (the JavaScript
records are mutated through the map's reference into the array). -/
def listModify {α : Type} : List α → Nat → (α → α) → List α
  | [], _, _ => []
  | a :: rest, 0, f => f a :: rest
  | a :: rest, i + 1, f => a :: listModify rest i f

/-- The parser's running state: the toolCalls array, the toolCallMap from
tool name to the index of its most recent record, and the clean lines. -/
structure ParseState where
  records : List ToolCallRecord := []
  callMap : List (String × Nat) := []
  cleanLines : List String := []

/-- One line of parseToolCallsFromOutput: try the call regex (a parsed
suffix appends a fresh record and points the map at it; a malformed suffix
is skipped), then the result regex (success := true, durationMs :=
`resultData.durationMs || 0` on the mapped record, if any), then the error
regex (success := false, error := `errorData.error`), and keep every
non-marker line as clean output. -/
def processLine (st : ParseState) (line : String) : ParseState :=
  match matchToolCall line with
  | some (toolName, inputJson) =>
      match jsonParse inputJson with
      | some input =>
          { st with
            records := st.records ++ [{ tool := toolName, input := input }]
            callMap := assocSet st.callMap toolName st.records.length }
      | none => st
  | none =>
      match matchToolResult line with
      | some (toolName, resultJson) =>
          match jsonParse resultJson with
          | some resultData =>
              match assocGet st.callMap toolName with
              | some i =>
                  { st with
                    records := listModify st.records i fun r =>
                      { r with
                        durationMs := jsOrZero (objField resultData "durationMs")
                        success := true } }
              | none => st
          | none => st
      | none =>
          match matchToolError line with
          | some (toolName, errorJson) =>
              match jsonParse errorJson with
              | some errorData =>
                  match assocGet st.callMap toolName with
                  | some i =>
                      { st with
                        records := listModify st.records i fun r =>
                          { r with
                            durationMs := jsOrZero (objField errorData "durationMs")
                            success := false
                            error := objField errorData "error" } }
                  | none => st
              | none => st
          | none => { st with cleanLines := st.cleanLines ++ [line] }

/-- Folds the parser over a list of lines from a starting state. -/
def parseLines (st : ParseState) (lines : List String) : ParseState :=
  lines.foldl processLine st

/-- parseToolCallsFromOutput (code-mode.ts): split on newlines, process
each line, return the trimmed join of clean lines and the record array. -/
def parseToolCallsFromOutput (output : String) : String × List ToolCallRecord :=
  let final := parseLines {} (splitLines output)
  (trimString (joinNL final.cleanLines), final.records)

/-!
## Statement-level predicates

Predicates used only to state and prove the theorems below. -/

/-- The toolCallMap indexes into the records array: every mapped index
holds a record whose tool is the map's key. An invariant of the parser. -/
def MapOK (st : ParseState) : Prop :=
  ∀ u i, assocGet st.callMap u = some i →
    ∃ r, st.records.get? i = some r ∧ r.tool = u

/-- The creation-time fields of a ToolCallRecord, which a record keeps
until a result or error marker for its tool reaches it. -/
def recordDefaults (r : ToolCallRecord) : Prop :=
  r.success = false ∧ r.durationMs = .num 0 ∧ r.output = none ∧ r.error = none

/-- The line carries no result or error marker for tool `t`. -/
def noResultOrErrorFor (t : String) (l : String) : Prop :=
  (∀ rest, matchToolResult l ≠ some (t, rest)) ∧
    (∀ rest, matchToolError l ≠ some (t, rest))

/-- The line carries no marker of any of the three kinds for tool `t`. -/
def noMarkerFor (t : String) (l : String) : Prop :=
  (∀ rest, matchToolCall l ≠ some (t, rest)) ∧ noResultOrErrorFor t l

/-- Dispatch reaches the execution step: rate limiting is skipped (no
config or disabled) or the check allows the call. -/
def rateLimitPasses (st : BridgeState) (tool : ToolDefinition) (context : ExecutionContext)
    (now : Nat) : Prop :=
  match st.config with
  | none => True
  | some cfg =>
      cfg.enableRateLimiting = false ∨
        (checkRateLimit st.rateLimitStore context.userId
          (tool.rateLimit.getD (cfg.defaultRateLimit.getD 60)) now).1.allowed = true

/-!
# Theorems

One main theorem per claim (C1 .. C10), with witnesses for the theorems
that carry hypotheses, preceded by the helper lemmas they share. -/

/-- C1: authorization succeeds iff the required set is empty, contains the
wildcard, the context's scopes contain the wildcard, or the sets
intersect — for checkAuthorization for every R, but for the tRPC
requireScopes middleware only for nonempty R: an empty required-scope list
(reachable through a tool that declares `requiredScopes: []`, which the
router's `?? ["*"]` default keeps) denies every request there. -/
theorem checkAuthorization_matches_spec (ctx : ExecutionContext) (R : List String) :
    (checkAuthorization ctx R = true ↔ authorizeSpecFormula ctx.scopes R) ∧
    (R ≠ [] → (requireScopesCheck ctx.scopes R = true ↔ authorizeSpecFormula ctx.scopes R)) ∧
    requireScopesCheck ctx.scopes [] = false := by
  refine ⟨?_, ?_, rfl⟩
  · unfold checkAuthorization
    by_cases hempty : R = []
    · subst hempty
      simp [authorizeSpecFormula]
    · by_cases hstar : "*" ∈ R
      · have hc : R.contains "*" = true := List.elem_iff.mpr hstar
        simp only [hc, Bool.or_true, if_true]
        simp [authorizeSpecFormula, hstar]
      · have hc : R.contains "*" = false := by
          rw [Bool.eq_false_iff]
          intro h
          exact hstar (List.elem_iff.mp h)
        have hlen : (R.length == 0) = false := by
          rcases R with _ | ⟨r, rs⟩
          · exact absurd rfl hempty
          · rfl
        simp only [hlen, hc, Bool.or_self]
        rw [if_neg (by simp), List.any_eq_true]
        constructor
        · rintro ⟨x, hxR, hx⟩
          rcases Bool.or_eq_true _ _ |>.mp hx with h | h
          · exact Or.inr (Or.inr (Or.inr ⟨x, List.elem_iff.mp h, hxR⟩))
          · exact Or.inr (Or.inr (Or.inl (List.elem_iff.mp h)))
        · rintro (h | h | h | ⟨s, hsS, hsR⟩)
          · exact absurd h hempty
          · exact absurd h hstar
          · rcases R with _ | ⟨r, rs⟩
            · exact absurd rfl hempty
            · exact ⟨r, List.mem_cons_self r rs,
                Bool.or_eq_true _ _ |>.mpr (Or.inr (List.elem_iff.mpr h))⟩
          · exact ⟨s, hsR, Bool.or_eq_true _ _ |>.mpr (Or.inl (List.elem_iff.mpr hsS))⟩
  · intro hempty
    unfold requireScopesCheck
    rw [List.any_eq_true]
    constructor
    · rintro ⟨x, hxR, hx⟩
      rcases Bool.or_eq_true _ _ |>.mp hx with h | h
      · rcases Bool.or_eq_true _ _ |>.mp h with h' | h'
        · exact Or.inr (Or.inr (Or.inr ⟨x, List.elem_iff.mp h', hxR⟩))
        · exact Or.inr (Or.inr (Or.inl (List.elem_iff.mp h')))
      · have hx' : x = "*" := by simpa using h
        subst hx'
        exact Or.inr (Or.inl hxR)
    · rintro (h | h | h | ⟨s, hsS, hsR⟩)
      · exact absurd h hempty
      · exact ⟨"*", h, by simp⟩
      · rcases R with _ | ⟨r, rs⟩
        · exact absurd rfl hempty
        · exact ⟨r, List.mem_cons_self r rs,
            Bool.or_eq_true _ _ |>.mpr
              (Or.inl (Bool.or_eq_true _ _ |>.mpr (Or.inr (List.elem_iff.mpr h))))⟩
      · exact ⟨s, hsR,
          Bool.or_eq_true _ _ |>.mpr
            (Or.inl (Bool.or_eq_true _ _ |>.mpr (Or.inl (List.elem_iff.mpr hsS))))⟩

/-- C1 counterexample: for the tRPC requireScopes middleware with an empty
required-scope list, the claimed formula says authorized (R is empty) but
the middleware denies: `[].some(...)` is false. -/
theorem requireScopes_empty_required_counterexample :
    ¬ (requireScopesCheck ["read"] [] = true ↔ authorizeSpecFormula ["read"] []) := by
  intro h
  have hfalse : requireScopesCheck ["read"] [] = true := h.mpr (Or.inl rfl)
  simp [requireScopesCheck] at hfalse

/-- C1 witness: the amended theorem applied at a context holding "read"
against required scopes ["admin", "read"]. -/
theorem checkAuthorization_matches_spec_witness :
    (checkAuthorization ⟨"u", "s", none, ["read"], none⟩ ["admin", "read"] = true ↔
      authorizeSpecFormula ["read"] ["admin", "read"]) ∧
    (requireScopesCheck ["read"] ["admin", "read"] = true ↔
      authorizeSpecFormula ["read"] ["admin", "read"]) := by
  have h := checkAuthorization_matches_spec ⟨"u", "s", none, ["read"], none⟩ ["admin", "read"]
  exact ⟨h.1, h.2.1 (by simp)⟩

/-- C2: a token issued at `issueTime` with expiration `s` (default 300)
verifies under the same configuration to exactly the issuing context — all
five fields — at every `t < issueTime + s`, and to none at every
`t ≥ issueTime + s`. -/
theorem token_roundtrip_expiry (config : TokenConfig) (ctx : ExecutionContext)
    (issueTime t : Nat) :
    (t < issueTime + config.expirationSeconds.getD 300 →
      verifyExecutionToken config (createExecutionToken config ctx issueTime) t = some ctx) ∧
    (issueTime + config.expirationSeconds.getD 300 ≤ t →
      verifyExecutionToken config (createExecutionToken config ctx issueTime) t = none) := by
  constructor
  · intro h
    simp [verifyExecutionToken, createExecutionToken, h]
  · intro h
    have hnot : ¬ (t < issueTime + config.expirationSeconds.getD 300) := Nat.not_lt.mpr h
    simp [verifyExecutionToken, createExecutionToken, hnot]

/-- C2 witness: a token with a 10-second expiry issued at 100 verifies at
105 and is rejected at 110. -/
theorem token_roundtrip_expiry_witness :
    verifyExecutionToken ⟨"sec", some 10, none⟩
        (createExecutionToken ⟨"sec", some 10, none⟩ ⟨"u", "s", none, ["*"], none⟩ 100) 105 =
      some ⟨"u", "s", none, ["*"], none⟩ ∧
    verifyExecutionToken ⟨"sec", some 10, none⟩
        (createExecutionToken ⟨"sec", some 10, none⟩ ⟨"u", "s", none, ["*"], none⟩ 100) 110 =
      none := by
  have h := token_roundtrip_expiry ⟨"sec", some 10, none⟩ ⟨"u", "s", none, ["*"], none⟩ 100
  exact ⟨(h 105).1 (by norm_num), (h 110).2 (by norm_num)⟩

/-- C3: verification is total and uniform — every failure mode (malformed
token, signature mismatch, audience mismatch, expiry) of both verifiers
(the token utility and the tRPC protocol method, the latter with an
uninitialized-protocol mode as well) returns the same value, none. -/
theorem verify_failure_uniform (config : TokenConfig) (bc : ToolBridgeConfig) (now : Nat) :
    (∀ s, verifyExecutionToken config (.malformed s) now = none) ∧
    (∀ p, p.signedWith ≠ config.secretKey →
      verifyExecutionToken config (.signed p) now = none) ∧
    (∀ p, p.audience ≠ config.audience.getD "tool-bridge" →
      verifyExecutionToken config (.signed p) now = none) ∧
    (∀ p, p.expiresAt ≤ now → verifyExecutionToken config (.signed p) now = none) ∧
    (∀ tok, trpcVerifyExecutionToken none tok now = none) ∧
    (∀ s, trpcVerifyExecutionToken (some bc) (.malformed s) now = none) ∧
    (∀ p, p.signedWith ≠ bc.tokenConfig.secretKey →
      trpcVerifyExecutionToken (some bc) (.signed p) now = none) ∧
    (∀ p, p.audience ≠ bc.tokenConfig.audience.getD "tool-bridge-trpc" →
      trpcVerifyExecutionToken (some bc) (.signed p) now = none) ∧
    (∀ p, p.expiresAt ≤ now → trpcVerifyExecutionToken (some bc) (.signed p) now = none) := by
  refine ⟨fun s => rfl, ?_, ?_, ?_, fun tok => rfl, fun s => rfl, ?_, ?_, ?_⟩
  · intro p h
    simp [verifyExecutionToken, h]
  · intro p h
    simp [verifyExecutionToken, h]
  · intro p h
    simp [verifyExecutionToken, Nat.not_lt.mpr h]
  · intro p h
    simp [trpcVerifyExecutionToken, h]
  · intro p h
    simp [trpcVerifyExecutionToken, h]
  · intro p h
    simp [trpcVerifyExecutionToken, Nat.not_lt.mpr h]

/-- C3 witness: each failure mode evaluated at a concrete token. -/
theorem verify_failure_uniform_witness :
    verifyExecutionToken ⟨"k", none, none⟩ (.malformed "zzz") 0 = none ∧
    verifyExecutionToken ⟨"k", none, none⟩
      (.signed ⟨⟨"u", "s", none, [], none⟩, 0, 500, "tool-bridge", "bad"⟩) 0 = none ∧
    verifyExecutionToken ⟨"k", none, none⟩
      (.signed ⟨⟨"u", "s", none, [], none⟩, 0, 500, "other-aud", "k"⟩) 0 = none ∧
    verifyExecutionToken ⟨"k", none, none⟩
      (.signed ⟨⟨"u", "s", none, [], none⟩, 0, 500, "tool-bridge", "k"⟩) 500 = none ∧
    trpcVerifyExecutionToken none (.malformed "zzz") 0 = none ∧
    trpcVerifyExecutionToken (some ⟨"", ⟨"k", none, none⟩, false, none⟩)
      (.signed ⟨⟨"u", "s", none, [], none⟩, 0, 500, "tool-bridge-trpc", "bad"⟩) 0 = none := by
  have h := verify_failure_uniform ⟨"k", none, none⟩ ⟨"", ⟨"k", none, none⟩, false, none⟩ 0
  refine ⟨h.1 "zzz", ?_, ?_, ?_, h.2.2.2.2.1 (.malformed "zzz"), ?_⟩
  · exact h.2.1 _ (by decide)
  · exact h.2.2.1 _ (by decide)
  · exact (verify_failure_uniform ⟨"k", none, none⟩
      ⟨"", ⟨"k", none, none⟩, false, none⟩ 500).2.2.2.1 _ (by decide)
  · exact h.2.2.2.2.2.2.1 _ (by decide)

lemma assocGet_assocSet_self {α β : Type} [BEq α] [LawfulBEq α]
    (m : List (α × β)) (k : α) (v : β) :
    assocGet (assocSet m k v) k = some v := by
  induction m with
  | nil => simp [assocSet, assocGet]
  | cons p rest ih =>
      obtain ⟨k₀, v₀⟩ := p
      by_cases h : k₀ == k
      · simp [assocSet, h, assocGet]
      · simp only [assocSet, h, if_false]
        simpa [assocGet, List.find?, h] using ih

lemma assocGet_assocSet_ne {α β : Type} [BEq α] [LawfulBEq α]
    (m : List (α × β)) (k k' : α) (v : β) (h : k' ≠ k) :
    assocGet (assocSet m k v) k' = assocGet m k' := by
  have hkk' : (k == k') = false := beq_eq_false_iff_ne.mpr fun hc => h hc.symm
  induction m with
  | nil => simp [assocSet, assocGet, List.find?, hkk']
  | cons p rest ih =>
      obtain ⟨k₀, v₀⟩ := p
      by_cases hk : k₀ == k
      · have hkeq : k₀ = k := eq_of_beq hk
        subst hkeq
        simp [assocSet, hk, assocGet, List.find?, hkk']
      · simp only [assocSet, hk, if_false]
        by_cases hk' : k₀ == k'
        · simp [assocGet, List.find?, hk']
        · simpa [assocGet, List.find?, hk'] using ih

lemma assocSet_assocSet {α β : Type} [BEq α] [LawfulBEq α]
    (m : List (α × β)) (k : α) (v w : β) :
    assocSet (assocSet m k v) k w = assocSet m k w := by
  induction m with
  | nil => simp [assocSet]
  | cons p rest ih =>
      obtain ⟨k₀, v₀⟩ := p
      by_cases h : k₀ == k
      · simp [assocSet, h]
      · simp [assocSet, h, ih]

lemma assocSet_eq_of_get {α β : Type} [BEq α] [LawfulBEq α]
    (m : List (α × β)) (k : α) (v : β) (h : assocGet m k = some v) :
    assocSet m k v = m := by
  induction m with
  | nil => simp [assocGet] at h
  | cons p rest ih =>
      obtain ⟨k₀, v₀⟩ := p
      by_cases hk : k₀ == k
      · have hv : v₀ = v := by
          simp [assocGet, List.find?, hk] at h
          exact h
        have hk' : k₀ = k := eq_of_beq hk
        simp [assocSet, hk, hk', hv]
      · simp only [assocSet, hk, if_false]
        have hr : assocGet rest k = some v := by
          simpa [assocGet, List.find?, hk] using h
        simp [ih hr]


lemma rateCalls_append (uid : String) (mx : Nat) (store : RateStore) (xs ys : List Nat) :
    rateCalls uid mx store (xs ++ ys) =
      ((rateCalls uid mx store xs).1 ++ (rateCalls uid mx (rateCalls uid mx store xs).2 ys).1,
        (rateCalls uid mx (rateCalls uid mx store xs).2 ys).2) := by
  induction xs generalizing store with
  | nil => simp [rateCalls]
  | cons t ts ih => simp [rateCalls, ih]

lemma checkRateLimit_fresh (store : RateStore) (uid : String) (mx t : Nat)
    (h : assocGet store ("rate:" ++ uid) = none ∨
      ∃ e, assocGet store ("rate:" ++ uid) = some e ∧ e.resetTime < t) :
    checkRateLimit store uid mx t =
      (⟨true, (mx : Int) - 1, 60⟩, assocSet store ("rate:" ++ uid) ⟨1, t + 60000⟩) := by
  rcases h with h | ⟨e, he, hlt⟩
  · simp [checkRateLimit, h]
  · simp [checkRateLimit, he, hlt]

lemma checkRateLimit_increment (store : RateStore) (uid : String) (mx t : Nat)
    (k r : Nat) (hget : assocGet store ("rate:" ++ uid) = some ⟨k, r⟩)
    (ht : t ≤ r) (hk : k < mx) :
    checkRateLimit store uid mx t =
      (⟨true, (mx : Int) - (k + 1), (r - t + 999) / 1000⟩,
        assocSet store ("rate:" ++ uid) ⟨k + 1, r⟩) := by
  simp [checkRateLimit, hget, Nat.not_lt.mpr ht, Nat.not_le.mpr hk]

lemma checkRateLimit_deny (store : RateStore) (uid : String) (mx t : Nat)
    (k r : Nat) (hget : assocGet store ("rate:" ++ uid) = some ⟨k, r⟩)
    (ht : t ≤ r) (hk : mx ≤ k) :
    checkRateLimit store uid mx t = (⟨false, 0, (r - t + 999) / 1000⟩, store) := by
  simp [checkRateLimit, hget, Nat.not_lt.mpr ht, hk]

lemma rateCalls_allowed (uid : String) (n r : Nat) :
    ∀ (ts : List Nat) (store : RateStore) (k : Nat),
      assocGet store ("rate:" ++ uid) = some ⟨k, r⟩ →
      (∀ t ∈ ts, t ≤ r) →
      k + ts.length ≤ n →
      rateCalls uid n store ts =
        (expectedAllowed n r k ts, assocSet store ("rate:" ++ uid) ⟨k + ts.length, r⟩)
  | [], store, k, hget, _, _ => by
      simp [rateCalls, expectedAllowed, assocSet_eq_of_get _ _ _ hget]
  | t :: ts, store, k, hget, hts, hbound => by
      have ht : t ≤ r := hts t (List.mem_cons_self ..)
      have hk : k < n := by
        have hlen : (t :: ts).length = ts.length + 1 := List.length_cons ..
        omega
      have hstep := checkRateLimit_increment store uid n t k r hget ht hk
      have hget₂ : assocGet (assocSet store ("rate:" ++ uid) ⟨k + 1, r⟩) ("rate:" ++ uid) =
          some ⟨k + 1, r⟩ := assocGet_assocSet_self ..
      have hts₂ : ∀ t₂ ∈ ts, t₂ ≤ r := fun t₂ ht₂ => hts t₂ (List.mem_cons_of_mem _ ht₂)
      have hbound₂ : (k + 1) + ts.length ≤ n := by
        simp only [List.length_cons] at hbound
        omega
      have ih := rateCalls_allowed uid n r ts
        (assocSet store ("rate:" ++ uid) ⟨k + 1, r⟩) (k + 1) hget₂ hts₂ hbound₂
      have harith : (k + 1) + ts.length = k + (t :: ts).length := by
        have hlen : (t :: ts).length = ts.length + 1 := List.length_cons ..
        omega
      simp only [rateCalls, hstep, ih, assocSet_assocSet, harith, expectedAllowed]


lemma expectedAllowed_get (n : Nat) :
    ∀ (ts : List Nat) (r k i : Nat), i < ts.length →
      (expectedAllowed n r k ts).get? i =
        some ⟨true, (n : Int) - (k + i + 1), (r - ts.getD i 0 + 999) / 1000⟩
  | [], _, _, i, h => by simp at h
  | t :: ts, r, k, 0, _ => by
      simp [expectedAllowed, List.getD]
  | t :: ts, r, k, i + 1, h => by
      have h' : i < ts.length := by simpa using h
      have ih := expectedAllowed_get n ts r (k + 1) i h'
      simp only [expectedAllowed, List.get?_cons_succ, List.getD, List.get?, ih,
        Option.some.injEq, RateCheckResult.mk.injEq, true_and]
      constructor
      · push_cast
        ring
      · trivial

/-- C5 (amended): for a limit of at least 1 and a user with no live window,
the first call opens a 60-second window (allowed, remaining n-1, resetIn
60); the next n-1 calls within the window are allowed with remaining
n-k at the k-th overall call (the get? conjunct); the (n+1)-th in-window
call is denied with remaining 0 and resetIn equal to the rounded-up
seconds left, positive whenever the call comes strictly before the
window's reset time (and 0 at the reset instant); a call after the reset
time has passed opens a fresh 60-second window. -/
theorem checkRateLimit_window
    (n : Nat) (hn : 1 ≤ n) (uid : String) (store : RateStore)
    (hfresh : assocGet store ("rate:" ++ uid) = none)
    (t₀ : Nat) (ts : List Nat) (hlen : ts.length = n - 1)
    (hts : ∀ t ∈ ts, t ≤ t₀ + 60000)
    (td tn : Nat) (htd : td ≤ t₀ + 60000) (htn : t₀ + 60000 < tn) :
    rateCalls uid n store (t₀ :: (ts ++ [td, tn])) =
      (⟨true, (n : Int) - 1, 60⟩ :: (expectedAllowed n (t₀ + 60000) 1 ts ++
        [⟨false, 0, (t₀ + 60000 - td + 999) / 1000⟩, ⟨true, (n : Int) - 1, 60⟩]),
        assocSet (assocSet store ("rate:" ++ uid) ⟨n, t₀ + 60000⟩) ("rate:" ++ uid)
          ⟨1, tn + 60000⟩) ∧
    (td < t₀ + 60000 → 0 < (t₀ + 60000 - td + 999) / 1000) ∧
    (∀ (r k : Nat) (ts' : List Nat) (i : Nat), i < ts'.length →
      (expectedAllowed n r k ts').get? i =
        some ⟨true, (n : Int) - (k + i + 1), (r - ts'.getD i 0 + 999) / 1000⟩) := by
  refine ⟨?_, ?_, fun r k ts' i h => expectedAllowed_get n ts' r k i h⟩
  · have hn1 : 1 + ts.length = n := by omega
    have h₀ := checkRateLimit_fresh store uid n t₀ (Or.inl hfresh)
    have hget₁ : assocGet (assocSet store ("rate:" ++ uid) ⟨1, t₀ + 60000⟩) ("rate:" ++ uid) =
        some ⟨1, t₀ + 60000⟩ := assocGet_assocSet_self ..
    have hallow := rateCalls_allowed uid n (t₀ + 60000) ts
      (assocSet store ("rate:" ++ uid) ⟨1, t₀ + 60000⟩) 1 hget₁ hts (by omega)
    rw [assocSet_assocSet, hn1] at hallow
    have hget₂ : assocGet (assocSet store ("rate:" ++ uid) ⟨n, t₀ + 60000⟩) ("rate:" ++ uid) =
        some ⟨n, t₀ + 60000⟩ := assocGet_assocSet_self ..
    have hdeny := checkRateLimit_deny _ uid n td n (t₀ + 60000) hget₂ htd (le_refl n)
    have hfr₂ := checkRateLimit_fresh (assocSet store ("rate:" ++ uid) ⟨n, t₀ + 60000⟩) uid n tn
      (Or.inr ⟨⟨n, t₀ + 60000⟩, hget₂, htn⟩)
    simp only [rateCalls, h₀, rateCalls_append, hallow, hdeny, hfr₂]
  · intro h
    have h1 : 1 ≤ (t₀ + 60000 - td + 999) / 1000 :=
      (Nat.one_le_div_iff (by norm_num)).mpr (by omega)
    omega


/-- C5 counterexample: the claim fails at the edges. With maxPerMinute = 0
the first call of a fresh window is allowed (the claim says the (0+1)-th
in-window call is denied) and JavaScript returns remaining = -1; and a
denial at exactly the window's reset instant returns resetIn = 0, not a
positive value. -/
theorem checkRateLimit_claim_counterexample :
    ((checkRateLimit [] "u" 0 0).1.allowed = true ∧
      (checkRateLimit [] "u" 0 0).1.remaining = -1) ∧
    ((checkRateLimit [("rate:u", ⟨1, 1000⟩)] "u" 1 1000).1.allowed = false ∧
      (checkRateLimit [("rate:u", ⟨1, 1000⟩)] "u" 1 1000).1.resetIn = 0) := by
  exact ⟨⟨rfl, rfl⟩, rfl, rfl⟩

/-- C5 witness: limit 2, calls at 0, 1, 2 and 70000 ms — allowed with
remaining 1 and 0, denied with remaining 0 and resetIn 60, then allowed
again in a fresh window resetting at 130000. -/
theorem checkRateLimit_window_witness :
    rateCalls "u" 2 [] [0, 1, 2, 70000] =
      ([⟨true, 1, 60⟩, ⟨true, 0, 60⟩, ⟨false, 0, 60⟩, ⟨true, 1, 60⟩],
        [("rate:u", ⟨1, 130000⟩)]) := by
  have h := checkRateLimit_window 2 (by norm_num) "u" [] rfl 0 [1] rfl
    (by intro t ht; simp at ht; omega) 2 70000 (by norm_num) (by norm_num)
  exact h.1


/-- C4: dispatch checks in order — unknown tool yields NOT_FOUND whatever
the scopes or rate state; a found tool failing authorization yields
FORBIDDEN even when the rate limit would also deny; with authorization
granted and rate limiting enabled, a disallowed check yields RATE_LIMITED
with the check's resetIn in the message; once every check passes the
registry executes and a thrown error comes back as EXECUTION_ERROR with
the original message while a value comes back as success — and every
branch, success or failure, reports executionTimeMs measured from the
call's start reading. -/
theorem dispatch_checks_order (st : BridgeState) (toolName : String) (input : JValue)
    (ctx : ExecutionContext) (now tEnd : Nat) :
    ((executeToolWithChecks st toolName input ctx now tEnd).1.executionTimeMs = tEnd - now) ∧
    (∀ reg, st.registry = some reg → reg.get toolName = none →
      (executeToolWithChecks st toolName input ctx now tEnd).1 =
        ⟨false, none, some ("NOT_FOUND", "Unknown tool: " ++ toolName), tEnd - now⟩) ∧
    (∀ reg tool, st.registry = some reg → reg.get toolName = some tool →
      checkAuthorization ctx (tool.requiredScopes.getD []) = false →
      (executeToolWithChecks st toolName input ctx now tEnd).1 =
        ⟨false, none,
          some ("FORBIDDEN", "Missing required scope. Required: " ++
            String.intercalate " or " (tool.requiredScopes.getD [])), tEnd - now⟩) ∧
    (∀ reg tool cfg, st.registry = some reg → reg.get toolName = some tool →
      checkAuthorization ctx (tool.requiredScopes.getD []) = true →
      st.config = some cfg → cfg.enableRateLimiting = true →
      (checkRateLimit st.rateLimitStore ctx.userId
        (tool.rateLimit.getD (cfg.defaultRateLimit.getD 60)) now).1.allowed = false →
      (executeToolWithChecks st toolName input ctx now tEnd).1 =
        ⟨false, none,
          some ("RATE_LIMITED", "Rate limit exceeded. Try again in " ++
            toString (checkRateLimit st.rateLimitStore ctx.userId
              (tool.rateLimit.getD (cfg.defaultRateLimit.getD 60)) now).1.resetIn ++
            " seconds"), tEnd - now⟩) ∧
    (∀ reg tool, st.registry = some reg → reg.get toolName = some tool →
      checkAuthorization ctx (tool.requiredScopes.getD []) = true →
      rateLimitPasses st tool ctx now →
      (∀ e, (reg.executeTool toolName input ctx).result = .error e →
        (executeToolWithChecks st toolName input ctx now tEnd).1 =
          ⟨false, none, some ("EXECUTION_ERROR", e), tEnd - now⟩) ∧
      (∀ v, (reg.executeTool toolName input ctx).result = .ok v →
        (executeToolWithChecks st toolName input ctx now tEnd).1 =
          ⟨true, some v, none, tEnd - now⟩)) := by
  refine ⟨?_, ?_, ?_, ?_, ?_⟩
  · cases hreg : st.registry with
    | none => simp [executeToolWithChecks, hreg]
    | some reg =>
        cases hget : reg.get toolName with
        | none => simp [executeToolWithChecks, hreg, hget]
        | some tool =>
            by_cases hauth : checkAuthorization ctx (tool.requiredScopes.getD []) = true
            · cases hcfg : st.config with
              | none =>
                  cases hrun : (reg.executeTool toolName input ctx).result <;>
                    simp [executeToolWithChecks, hreg, hget, hauth, hcfg,
                      dispatchExecute, hrun]
              | some cfg =>
                  by_cases hen : cfg.enableRateLimiting = true
                  · by_cases hallow : (checkRateLimit st.rateLimitStore ctx.userId
                        (tool.rateLimit.getD (cfg.defaultRateLimit.getD 60)) now).1.allowed = true
                    · cases hrun : (reg.executeTool toolName input ctx).result <;>
                        simp [executeToolWithChecks, hreg, hget, hauth, hcfg, hen, hallow,
                          dispatchExecute, hrun]
                    · simp [executeToolWithChecks, hreg, hget, hauth, hcfg, hen, hallow]
                  · cases hrun : (reg.executeTool toolName input ctx).result <;>
                      simp [executeToolWithChecks, hreg, hget, hauth, hcfg, hen,
                        dispatchExecute, hrun]
            · simp [executeToolWithChecks, hreg, hget, hauth]
  · intro reg hreg hget
    simp [executeToolWithChecks, hreg, hget]
  · intro reg tool hreg hget hauth
    simp [executeToolWithChecks, hreg, hget, hauth]
  · intro reg tool cfg hreg hget hauth hcfg hen hallow
    simp [executeToolWithChecks, hreg, hget, hauth, hcfg, hen, hallow]
  · intro reg tool hreg hget hauth hpass
    unfold rateLimitPasses at hpass
    constructor
    · intro e hrun
      cases hcfg : st.config with
      | none => simp [executeToolWithChecks, hreg, hget, hauth, hcfg, dispatchExecute, hrun]
      | some cfg =>
          rw [hcfg] at hpass
          rcases hpass with hen | hallow
          · simp [executeToolWithChecks, hreg, hget, hauth, hcfg, hen, dispatchExecute, hrun]
          · by_cases hen : cfg.enableRateLimiting = true
            · simp [executeToolWithChecks, hreg, hget, hauth, hcfg, hen, hallow,
                dispatchExecute, hrun]
            · simp [executeToolWithChecks, hreg, hget, hauth, hcfg, hen, dispatchExecute, hrun]
    · intro v hrun
      cases hcfg : st.config with
      | none => simp [executeToolWithChecks, hreg, hget, hauth, hcfg, dispatchExecute, hrun]
      | some cfg =>
          rw [hcfg] at hpass
          rcases hpass with hen | hallow
          · simp [executeToolWithChecks, hreg, hget, hauth, hcfg, hen, dispatchExecute, hrun]
          · by_cases hen : cfg.enableRateLimiting = true
            · simp [executeToolWithChecks, hreg, hget, hauth, hcfg, hen, hallow,
                dispatchExecute, hrun]
            · simp [executeToolWithChecks, hreg, hget, hauth, hcfg, hen, dispatchExecute, hrun]


/-- C10: the rate-limit store is untouched by every dispatch that fails
before the rate-limit step (uninitialized protocol, unknown tool, or
scope denial), and is exactly the checkRateLimit-updated store on every
dispatch that reaches the step with rate limiting enabled — including
calls whose executor then throws (EXECUTION_ERROR still consumes the
slot). The final two conjuncts characterize that update as a single
increment: a fresh window starts at count 1 and an in-window allowed call
goes from k to k+1. -/
theorem dispatch_rate_store_frame (st : BridgeState) (toolName : String) (input : JValue)
    (ctx : ExecutionContext) (now tEnd : Nat) :
    (st.registry = none →
      (executeToolWithChecks st toolName input ctx now tEnd).2 = st.rateLimitStore) ∧
    (∀ reg, st.registry = some reg → reg.get toolName = none →
      (executeToolWithChecks st toolName input ctx now tEnd).2 = st.rateLimitStore) ∧
    (∀ reg tool, st.registry = some reg → reg.get toolName = some tool →
      checkAuthorization ctx (tool.requiredScopes.getD []) = false →
      (executeToolWithChecks st toolName input ctx now tEnd).2 = st.rateLimitStore) ∧
    (∀ reg tool, st.registry = some reg → reg.get toolName = some tool →
      checkAuthorization ctx (tool.requiredScopes.getD []) = true → st.config = none →
      (executeToolWithChecks st toolName input ctx now tEnd).2 = st.rateLimitStore) ∧
    (∀ reg tool cfg, st.registry = some reg → reg.get toolName = some tool →
      checkAuthorization ctx (tool.requiredScopes.getD []) = true →
      st.config = some cfg → cfg.enableRateLimiting = false →
      (executeToolWithChecks st toolName input ctx now tEnd).2 = st.rateLimitStore) ∧
    (∀ reg tool cfg, st.registry = some reg → reg.get toolName = some tool →
      checkAuthorization ctx (tool.requiredScopes.getD []) = true →
      st.config = some cfg → cfg.enableRateLimiting = true →
      (executeToolWithChecks st toolName input ctx now tEnd).2 =
        (checkRateLimit st.rateLimitStore ctx.userId
          (tool.rateLimit.getD (cfg.defaultRateLimit.getD 60)) now).2) ∧
    (∀ reg tool cfg e, st.registry = some reg → reg.get toolName = some tool →
      checkAuthorization ctx (tool.requiredScopes.getD []) = true →
      st.config = some cfg → cfg.enableRateLimiting = true →
      (checkRateLimit st.rateLimitStore ctx.userId
        (tool.rateLimit.getD (cfg.defaultRateLimit.getD 60)) now).1.allowed = true →
      (reg.executeTool toolName input ctx).result = .error e →
      (executeToolWithChecks st toolName input ctx now tEnd).1.error =
          some ("EXECUTION_ERROR", e) ∧
        (executeToolWithChecks st toolName input ctx now tEnd).2 =
          (checkRateLimit st.rateLimitStore ctx.userId
            (tool.rateLimit.getD (cfg.defaultRateLimit.getD 60)) now).2) ∧
    (∀ (uid : String) (limit t : Nat) (store : RateStore),
      assocGet store ("rate:" ++ uid) = none →
      assocGet (checkRateLimit store uid limit t).2 ("rate:" ++ uid) = some ⟨1, t + 60000⟩) ∧
    (∀ (uid : String) (limit t : Nat) (store : RateStore) (k r : Nat),
      assocGet store ("rate:" ++ uid) = some ⟨k, r⟩ → t ≤ r → k < limit →
      assocGet (checkRateLimit store uid limit t).2 ("rate:" ++ uid) = some ⟨k + 1, r⟩) := by
  refine ⟨?_, ?_, ?_, ?_, ?_, ?_, ?_, ?_, ?_⟩
  · intro hreg
    simp [executeToolWithChecks, hreg]
  · intro reg hreg hget
    simp [executeToolWithChecks, hreg, hget]
  · intro reg tool hreg hget hauth
    simp [executeToolWithChecks, hreg, hget, hauth]
  · intro reg tool hreg hget hauth hcfg
    simp [executeToolWithChecks, hreg, hget, hauth, hcfg]
  · intro reg tool cfg hreg hget hauth hcfg hen
    simp [executeToolWithChecks, hreg, hget, hauth, hcfg, hen]
  · intro reg tool cfg hreg hget hauth hcfg hen
    by_cases hallow : (checkRateLimit st.rateLimitStore ctx.userId
        (tool.rateLimit.getD (cfg.defaultRateLimit.getD 60)) now).1.allowed = true
    · simp [executeToolWithChecks, hreg, hget, hauth, hcfg, hen, hallow]
    · simp [executeToolWithChecks, hreg, hget, hauth, hcfg, hen, hallow]
  · intro reg tool cfg e hreg hget hauth hcfg hen hallow hrun
    constructor
    · simp [executeToolWithChecks, hreg, hget, hauth, hcfg, hen, hallow,
        dispatchExecute, hrun]
    · simp [executeToolWithChecks, hreg, hget, hauth, hcfg, hen, hallow]
  · intro uid limit t store hget
    rw [checkRateLimit_fresh store uid limit t (Or.inl hget)]
    exact assocGet_assocSet_self ..
  · intro uid limit t store k r hget ht hk
    rw [checkRateLimit_increment store uid limit t k r hget ht hk]
    exact assocGet_assocSet_self ..


/-- C6: executeTool throws the unknown-tool error for an unregistered
name; throws the invalid-input error whose message carries every issue
as `path: message` when input validation fails — an outcome fixed without
reference to the tool's executor, which is therefore not invoked; runs
the executor on the validated input and the context otherwise, letting an
executor throw propagate; and, when output validation is enabled and an
output schema exists, logs a failing result and still returns the raw
executor result, never rejecting it. -/
theorem executeTool_validation (reg : ToolRegistry) (name : String) (input : JValue)
    (ctx : ExecutionContext) :
    (reg.get name = none →
      reg.executeTool name input ctx = ⟨.error ("Unknown tool: " ++ name), []⟩) ∧
    (∀ tool issues, reg.get name = some tool →
      tool.inputSchema.parse input = .error issues →
      reg.executeTool name input ctx =
        ⟨.error ("Invalid input for tool '" ++ name ++ "': " ++ issueDetails issues), []⟩) ∧
    (∀ tool validated e, reg.get name = some tool →
      tool.inputSchema.parse input = .ok validated →
      tool.run validated ctx = .error e →
      reg.executeTool name input ctx = ⟨.error e, []⟩) ∧
    (∀ tool validated result outSchema issues, reg.get name = some tool →
      tool.inputSchema.parse input = .ok validated →
      tool.run validated ctx = .ok result →
      reg.validateOutputs = true → tool.outputSchema = some outSchema →
      outSchema.parse result = .error issues →
      reg.executeTool name input ctx =
        ⟨.ok result, ["Tool '" ++ name ++ "' returned invalid output"]⟩) ∧
    (∀ tool validated result parsed outSchema, reg.get name = some tool →
      tool.inputSchema.parse input = .ok validated →
      tool.run validated ctx = .ok result →
      reg.validateOutputs = true → tool.outputSchema = some outSchema →
      outSchema.parse result = .ok parsed →
      reg.executeTool name input ctx = ⟨.ok parsed, []⟩) ∧
    (∀ tool validated result, reg.get name = some tool →
      tool.inputSchema.parse input = .ok validated →
      tool.run validated ctx = .ok result →
      tool.outputSchema = none →
      reg.executeTool name input ctx = ⟨.ok result, []⟩) := by
  refine ⟨?_, ?_, ?_, ?_, ?_, ?_⟩
  · intro hget
    simp [ToolRegistry.executeTool, hget]
  · intro tool issues hget hparse
    simp [ToolRegistry.executeTool, hget, hparse]
  · intro tool validated e hget hparse hrun
    simp [ToolRegistry.executeTool, hget, hparse, hrun]
  · intro tool validated result outSchema issues hget hparse hrun hval hout hfail
    simp [ToolRegistry.executeTool, hget, hparse, hrun, hval, hout, hfail]
  · intro tool validated result parsed outSchema hget hparse hrun hval hout hok
    simp [ToolRegistry.executeTool, hget, hparse, hrun, hval, hout, hok]
  · intro tool validated result hget hparse hrun hout
    cases hval : reg.validateOutputs <;>
      simp [ToolRegistry.executeTool, hget, hparse, hrun, hval, hout]

/-- C8: a schema whose runtime kind is outside the recognized set renders
as the supplied interface name itself, for both copies of the generator
(the guarded code-mode copy and the stampede copy that reads the Zod 4
enum entries and literal values internals directly); both generators are
total Lean functions, so generation never fails. -/
theorem zodToTypeString_unrecognized_fallback (kind typeName : String) :
    zodToTypeString (.other kind) typeName = typeName ∧
    zodToTypeStringB (.other kind) typeName = typeName := by
  exact ⟨rfl, rfl⟩


/-- C4 witness: an unknown tool returns NOT_FOUND with the elapsed time,
and a registered echo tool dispatched with the right scope executes
successfully. -/
theorem dispatch_checks_order_witness :
    (executeToolWithChecks ⟨none, some ⟨[], true⟩, []⟩ "t" .null
        ⟨"u", "s", none, [], none⟩ 0 7).1 =
      ⟨false, none, some ("NOT_FOUND", "Unknown tool: t"), 7⟩ ∧
    (executeToolWithChecks
        ⟨some ⟨"", ⟨"k", none, none⟩, true, some 60⟩,
          some ⟨[⟨"echo", "", ⟨fun v => .ok v⟩, none, some ["echo:use"], some 1,
            fun v _ => .ok v⟩], true⟩, []⟩
        "echo" (.str "hi") ⟨"u", "s", none, ["echo:use"], none⟩ 0 5).1 =
      ⟨true, some (.str "hi"), none, 5⟩ := by
  constructor
  · exact (dispatch_checks_order ⟨none, some ⟨[], true⟩, []⟩ "t" .null
      ⟨"u", "s", none, [], none⟩ 0 7).2.1 ⟨[], true⟩ rfl rfl
  · exact ((dispatch_checks_order
      ⟨some ⟨"", ⟨"k", none, none⟩, true, some 60⟩,
        some ⟨[⟨"echo", "", ⟨fun v => .ok v⟩, none, some ["echo:use"], some 1,
          fun v _ => .ok v⟩], true⟩, []⟩
      "echo" (.str "hi") ⟨"u", "s", none, ["echo:use"], none⟩ 0 5).2.2.2.2
      ⟨[⟨"echo", "", ⟨fun v => .ok v⟩, none, some ["echo:use"], some 1,
        fun v _ => .ok v⟩], true⟩
      ⟨"echo", "", ⟨fun v => .ok v⟩, none, some ["echo:use"], some 1, fun v _ => .ok v⟩
      rfl rfl rfl (Or.inr rfl)).2 (.str "hi") rfl

/-- C10 witness: a scope-denied dispatch leaves the store unchanged; an
executor that throws still consumes one slot (EXECUTION_ERROR with a
fresh window at count 1); and an in-window allowed check increments the
count by exactly one. -/
theorem dispatch_rate_store_frame_witness :
    (executeToolWithChecks
        ⟨some ⟨"", ⟨"k", none, none⟩, true, some 60⟩,
          some ⟨[⟨"echo", "", ⟨fun v => .ok v⟩, none, some ["echo:use"], some 1,
            fun v _ => .ok v⟩], true⟩, []⟩
        "echo" .null ⟨"u", "s", none, ["other"], none⟩ 0 5).2 = [] ∧
    ((executeToolWithChecks
        ⟨some ⟨"", ⟨"k", none, none⟩, true, some 60⟩,
          some ⟨[⟨"boom", "", ⟨fun v => .ok v⟩, none, none, none,
            fun _ _ => .error "kaboom"⟩], true⟩, []⟩
        "boom" .null ⟨"u", "s", none, [], none⟩ 0 5).1.error =
      some ("EXECUTION_ERROR", "kaboom") ∧
     (executeToolWithChecks
        ⟨some ⟨"", ⟨"k", none, none⟩, true, some 60⟩,
          some ⟨[⟨"boom", "", ⟨fun v => .ok v⟩, none, none, none,
            fun _ _ => .error "kaboom"⟩], true⟩, []⟩
        "boom" .null ⟨"u", "s", none, [], none⟩ 0 5).2 = [("rate:u", ⟨1, 60000⟩)]) ∧
    assocGet (checkRateLimit [("rate:u", ⟨1, 60000⟩)] "u" 2 100).2 "rate:u" =
      some ⟨2, 60000⟩ := by
  refine ⟨?_, ?_, ?_⟩
  · exact (dispatch_rate_store_frame
      ⟨some ⟨"", ⟨"k", none, none⟩, true, some 60⟩,
        some ⟨[⟨"echo", "", ⟨fun v => .ok v⟩, none, some ["echo:use"], some 1,
          fun v _ => .ok v⟩], true⟩, []⟩
      "echo" .null ⟨"u", "s", none, ["other"], none⟩ 0 5).2.2.1
      ⟨[⟨"echo", "", ⟨fun v => .ok v⟩, none, some ["echo:use"], some 1,
        fun v _ => .ok v⟩], true⟩
      ⟨"echo", "", ⟨fun v => .ok v⟩, none, some ["echo:use"], some 1, fun v _ => .ok v⟩
      rfl rfl rfl
  · exact (dispatch_rate_store_frame
      ⟨some ⟨"", ⟨"k", none, none⟩, true, some 60⟩,
        some ⟨[⟨"boom", "", ⟨fun v => .ok v⟩, none, none, none,
          fun _ _ => .error "kaboom"⟩], true⟩, []⟩
      "boom" .null ⟨"u", "s", none, [], none⟩ 0 5).2.2.2.2.2.2.1
      ⟨[⟨"boom", "", ⟨fun v => .ok v⟩, none, none, none,
        fun _ _ => .error "kaboom"⟩], true⟩
      ⟨"boom", "", ⟨fun v => .ok v⟩, none, none, none, fun _ _ => .error "kaboom"⟩
      ⟨"", ⟨"k", none, none⟩, true, some 60⟩ "kaboom" rfl rfl rfl rfl rfl rfl rfl
  · exact (dispatch_rate_store_frame ⟨none, none, []⟩ "x" .null
      ⟨"u", "s", none, [], none⟩ 0 0).2.2.2.2.2.2.2.2 "u" 2 100
      [("rate:u", ⟨1, 60000⟩)] 1 60000 rfl (by norm_num) (by norm_num)

/-- C6 witness: unknown tool, invalid input (per-field message), and a
failing output schema that is logged while the raw result is returned. -/
theorem executeTool_validation_witness :
    (ToolRegistry.executeTool ⟨[], true⟩ "nope" .null ⟨"u", "s", none, [], none⟩ =
      ⟨.error "Unknown tool: nope", []⟩) ∧
    (ToolRegistry.executeTool
        ⟨[⟨"bad", "", ⟨fun v => match v with
            | .num n => .ok (.num n)
            | _ => .error [⟨["value"], "Expected number"⟩]⟩, none, none, none,
          fun v _ => .ok v⟩], true⟩
        "bad" (.str "x") ⟨"u", "s", none, [], none⟩ =
      ⟨.error "Invalid input for tool 'bad': value: Expected number", []⟩) ∧
    (ToolRegistry.executeTool
        ⟨[⟨"oops", "", ⟨fun v => .ok v⟩,
          some ⟨fun v => match v with
            | .num n => .ok (.num n)
            | _ => .error [⟨["value"], "Expected number"⟩]⟩, none, none,
          fun _ _ => .ok (.str "bad-output")⟩], true⟩
        "oops" .null ⟨"u", "s", none, [], none⟩ =
      ⟨.ok (.str "bad-output"), ["Tool 'oops' returned invalid output"]⟩) := by
  refine ⟨?_, ?_, ?_⟩
  · exact (executeTool_validation ⟨[], true⟩ "nope" .null ⟨"u", "s", none, [], none⟩).1 rfl
  · exact (executeTool_validation
      ⟨[⟨"bad", "", ⟨fun v => match v with
          | .num n => .ok (.num n)
          | _ => .error [⟨["value"], "Expected number"⟩]⟩, none, none, none,
        fun v _ => .ok v⟩], true⟩
      "bad" (.str "x") ⟨"u", "s", none, [], none⟩).2.1
      ⟨"bad", "", ⟨fun v => match v with
          | .num n => .ok (.num n)
          | _ => .error [⟨["value"], "Expected number"⟩]⟩, none, none, none,
        fun v _ => .ok v⟩
      [⟨["value"], "Expected number"⟩] rfl rfl
  · exact (executeTool_validation
      ⟨[⟨"oops", "", ⟨fun v => .ok v⟩,
        some ⟨fun v => match v with
          | .num n => .ok (.num n)
          | _ => .error [⟨["value"], "Expected number"⟩]⟩, none, none,
        fun _ _ => .ok (.str "bad-output")⟩], true⟩
      "oops" .null ⟨"u", "s", none, [], none⟩).2.2.2.1
      ⟨"oops", "", ⟨fun v => .ok v⟩,
        some ⟨fun v => match v with
          | .num n => .ok (.num n)
          | _ => .error [⟨["value"], "Expected number"⟩]⟩, none, none,
        fun _ _ => .ok (.str "bad-output")⟩
      .null (.str "bad-output")
      ⟨fun v => match v with
        | .num n => .ok (.num n)
        | _ => .error [⟨["value"], "Expected number"⟩]⟩
      [⟨["value"], "Expected number"⟩] rfl rfl rfl rfl rfl rfl


lemma get?_lt_length {α : Type} {l : List α} {i : Nat} {a : α} (h : l.get? i = some a) :
    i < l.length := by
  by_contra hc
  rw [List.get?_eq_none.mpr (Nat.le_of_not_lt hc)] at h
  exact Option.noConfusion h

lemma listModify_length {α : Type} : ∀ (l : List α) (i : Nat) (f : α → α),
    (listModify l i f).length = l.length
  | [], _, _ => rfl
  | _ :: rest, 0, f => by simp [listModify]
  | _ :: rest, i + 1, f => by simp [listModify, listModify_length rest i f]

lemma listModify_get_ne {α : Type} : ∀ (l : List α) (i j : Nat) (f : α → α), j ≠ i →
    (listModify l i f).get? j = l.get? j
  | [], _, _, _, _ => by simp [listModify]
  | a :: rest, 0, 0, f, h => absurd rfl h
  | a :: rest, 0, j + 1, f, _ => by simp [listModify]
  | a :: rest, i + 1, 0, f, _ => by simp [listModify]
  | a :: rest, i + 1, j + 1, f, h => by
      simp only [listModify, List.get?_cons_succ]
      exact listModify_get_ne rest i j f (fun hc => h (by omega))

lemma listModify_get_self {α : Type} : ∀ (l : List α) (i : Nat) (f : α → α),
    (listModify l i f).get? i = (l.get? i).map f
  | [], _, _ => by simp [listModify]
  | a :: rest, 0, f => by simp [listModify]
  | a :: rest, i + 1, f => by
      simp only [listModify, List.get?_cons_succ]
      exact listModify_get_self rest i f

/-- The four possible effects of one parser line: a fresh record appended
and mapped, an in-place update of the mapped record through a
tool-preserving function, no effect, or a clean line appended. -/
lemma processLine_shape (st : ParseState) (l : String) :
    (∃ t js v, matchToolCall l = some (t, js) ∧ jsonParse js = some v ∧
      processLine st l =
        { st with records := st.records ++ [{ tool := t, input := v }]
                  callMap := assocSet st.callMap t st.records.length }) ∨
    (∃ t i f js, assocGet st.callMap t = some i ∧ (∀ r, (f r).tool = r.tool) ∧
      (matchToolResult l = some (t, js) ∨ matchToolError l = some (t, js)) ∧
      processLine st l = { st with records := listModify st.records i f }) ∨
    (processLine st l = st) ∨
    (processLine st l = { st with cleanLines := st.cleanLines ++ [l] }) := by
  cases hc : matchToolCall l with
  | some p =>
      obtain ⟨t, js⟩ := p
      cases hj : jsonParse js with
      | some v =>
          refine Or.inl ⟨t, js, v, rfl, hj, ?_⟩
          simp [processLine, hc, hj]
      | none =>
          refine Or.inr (Or.inr (Or.inl ?_))
          simp [processLine, hc, hj]
  | none =>
      cases hr : matchToolResult l with
      | some p =>
          obtain ⟨t, js⟩ := p
          cases hj : jsonParse js with
          | some v =>
              cases hm : assocGet st.callMap t with
              | some i =>
                  refine Or.inr (Or.inl ⟨t, i,
                    fun r => { r with
                      durationMs := jsOrZero (objField v "durationMs")
                      success := true },
                    js, hm, fun r => rfl, Or.inl rfl, ?_⟩)
                  simp [processLine, hc, hr, hj, hm]
              | none =>
                  refine Or.inr (Or.inr (Or.inl ?_))
                  simp [processLine, hc, hr, hj, hm]
          | none =>
              refine Or.inr (Or.inr (Or.inl ?_))
              simp [processLine, hc, hr, hj]
      | none =>
          cases he : matchToolError l with
          | some p =>
              obtain ⟨t, js⟩ := p
              cases hj : jsonParse js with
              | some v =>
                  cases hm : assocGet st.callMap t with
                  | some i =>
                      refine Or.inr (Or.inl ⟨t, i,
                        fun r => { r with
                          durationMs := jsOrZero (objField v "durationMs")
                          success := false
                          error := objField v "error" },
                        js, hm, fun r => rfl, Or.inr rfl, ?_⟩)
                      simp [processLine, hc, hr, he, hj, hm]
                  | none =>
                      refine Or.inr (Or.inr (Or.inl ?_))
                      simp [processLine, hc, hr, he, hj, hm]
              | none =>
                  refine Or.inr (Or.inr (Or.inl ?_))
                  simp [processLine, hc, hr, he, hj]
          | none =>
              refine Or.inr (Or.inr (Or.inr ?_))
              simp [processLine, hc, hr, he]


lemma mapOK_processLine (st : ParseState) (l : String) (h : MapOK st) :
    MapOK (processLine st l) := by
  rcases processLine_shape st l with
    ⟨t, js, v, hc, hj, heq⟩ | ⟨t, i, f, js, hm, hf, hmark, heq⟩ | heq | heq
  · rw [heq]
    intro u i' hget'
    by_cases hu : u = t
    · subst hu
      rw [assocGet_assocSet_self] at hget'
      have hi' : i' = st.records.length := (Option.some.inj hget').symm
      subst hi'
      exact ⟨{ tool := u, input := v }, List.get?_concat_length .., rfl⟩
    · rw [assocGet_assocSet_ne _ _ _ _ hu] at hget'
      obtain ⟨r, hr, htool⟩ := h u i' hget'
      exact ⟨r, by rw [List.get?_append (get?_lt_length hr)]; exact hr, htool⟩
  · rw [heq]
    intro u i' hget'
    obtain ⟨r, hr, htool⟩ := h u i' hget'
    by_cases hii : i' = i
    · subst hii
      refine ⟨f r, ?_, by rw [hf r]; exact htool⟩
      rw [listModify_get_self, hr]
      rfl
    · exact ⟨r, by rw [listModify_get_ne _ _ _ _ hii]; exact hr, htool⟩
  · rw [heq]; exact h
  · rw [heq]; exact h

lemma processLine_get_preserved (st : ParseState) (l : String) (i : Nat)
    (r : ToolCallRecord) (hmapOK : MapOK st) (hrec : st.records.get? i = some r)
    (hsafe : assocGet st.callMap r.tool = some i → noResultOrErrorFor r.tool l) :
    (processLine st l).records.get? i = some r := by
  rcases processLine_shape st l with
    ⟨t, js, v, hc, hj, heq⟩ | ⟨t, j, f, js, hm, hf, hmark, heq⟩ | heq | heq
  · rw [heq]
    show (st.records ++ _).get? i = some r
    rw [List.get?_append (get?_lt_length hrec)]
    exact hrec
  · rw [heq]
    by_cases hij : i = j
    · subst hij
      obtain ⟨r', hr', htool'⟩ := hmapOK t i hm
      have hrr : r' = r := by
        rw [hrec] at hr'
        exact (Option.some.inj hr').symm
      subst hrr
      have hne := hsafe (by rwa [htool'])
      rw [htool'] at hne
      rcases hmark with hres | herr
      · exact absurd hres (hne.1 js)
      · exact absurd herr (hne.2 js)
    · rw [listModify_get_ne _ _ _ _ hij]
      exact hrec
  · rw [heq]; exact hrec
  · rw [heq]; exact hrec

lemma processLine_map_ne (st : ParseState) (l : String) (t : String) (i : Nat)
    (hi : i < st.records.length) (h : assocGet st.callMap t ≠ some i) :
    assocGet (processLine st l).callMap t ≠ some i := by
  rcases processLine_shape st l with
    ⟨u, js, v, hc, hj, heq⟩ | ⟨u, j, f, js, hm, hf, hmark, heq⟩ | heq | heq
  · rw [heq]
    by_cases hu : t = u
    · subst hu
      show assocGet (assocSet st.callMap t st.records.length) t ≠ some i
      rw [assocGet_assocSet_self]
      intro hc'
      have := Option.some.inj hc'
      omega
    · show assocGet (assocSet st.callMap u st.records.length) t ≠ some i
      rw [assocGet_assocSet_ne _ _ _ _ hu]
      exact h
  · rw [heq]; exact h
  · rw [heq]; exact h
  · rw [heq]; exact h

lemma processLine_map_of_no_call (st : ParseState) (l : String) (t : String)
    (h : ∀ rest, matchToolCall l ≠ some (t, rest)) :
    assocGet (processLine st l).callMap t = assocGet st.callMap t := by
  rcases processLine_shape st l with
    ⟨u, js, v, hc, hj, heq⟩ | ⟨u, j, f, js, hm, hf, hmark, heq⟩ | heq | heq
  · rw [heq]
    have hu : t ≠ u := by
      intro he
      subst he
      exact h js hc
    show assocGet (assocSet st.callMap u st.records.length) t = assocGet st.callMap t
    exact assocGet_assocSet_ne _ _ _ _ hu
  · rw [heq]
  · rw [heq]
  · rw [heq]

lemma processLine_length_mono (st : ParseState) (l : String) :
    st.records.length ≤ (processLine st l).records.length := by
  rcases processLine_shape st l with
    ⟨t, js, v, hc, hj, heq⟩ | ⟨t, i, f, js, hm, hf, hmark, heq⟩ | heq | heq
  · rw [heq]
    simp
  · rw [heq]
    show st.records.length ≤ (listModify st.records i f).length
    rw [listModify_length]
  · rw [heq]
  · rw [heq]

lemma processLine_cleanLines (st : ParseState) (l : String) :
    (processLine st l).cleanLines =
      st.cleanLines ++ (if isMarkerLine l then [] else [l]) := by
  cases hc : matchToolCall l with
  | some p =>
      obtain ⟨t, js⟩ := p
      have hml : isMarkerLine l = true := by simp [isMarkerLine, hc]
      cases hj : jsonParse js <;> simp [processLine, hc, hj, hml]
  | none =>
      cases hr : matchToolResult l with
      | some p =>
          obtain ⟨t, js⟩ := p
          have hml : isMarkerLine l = true := by simp [isMarkerLine, hr]
          cases hj : jsonParse js with
          | some v =>
              cases hm : assocGet st.callMap t <;> simp [processLine, hc, hr, hj, hm, hml]
          | none => simp [processLine, hc, hr, hj, hml]
      | none =>
          cases he : matchToolError l with
          | some p =>
              obtain ⟨t, js⟩ := p
              have hml : isMarkerLine l = true := by simp [isMarkerLine, he]
              cases hj : jsonParse js with
              | some v =>
                  cases hm : assocGet st.callMap t <;>
                    simp [processLine, hc, hr, he, hj, hm, hml]
              | none => simp [processLine, hc, hr, he, hj, hml]
          | none =>
              have hml : isMarkerLine l = false := by simp [isMarkerLine, hc, hr, he]
              simp [processLine, hc, hr, he, hml]

lemma parseLines_cleanLines : ∀ (ls : List String) (st : ParseState),
    (parseLines st ls).cleanLines =
      st.cleanLines ++ ls.filter (fun l => !isMarkerLine l)
  | [], st => by simp [parseLines]
  | l :: ls, st => by
      have ih := parseLines_cleanLines ls (processLine st l)
      simp only [parseLines, List.foldl_cons] at ih ⊢
      rw [ih, processLine_cleanLines]
      by_cases h : isMarkerLine l
      · simp [h, List.filter_cons]
      · simp [h, List.filter_cons]

lemma parseLines_invariant {P : ParseState → Prop} :
    ∀ (ls : List String), (∀ st l, l ∈ ls → P st → P (processLine st l)) →
      ∀ st, P st → P (parseLines st ls)
  | [], _, st, hst => by simpa [parseLines] using hst
  | l :: ls, h, st, hst => by
      have h1 := h st l (List.mem_cons_self ..) hst
      have h2 := parseLines_invariant ls
        (fun st' l' hl' => h st' l' (List.mem_cons_of_mem _ hl')) (processLine st l) h1
      simpa [parseLines] using h2

lemma parseLines_append (st : ParseState) (xs ys : List String) :
    parseLines st (xs ++ ys) = parseLines (parseLines st xs) ys := by
  simp [parseLines, List.foldl_append]

lemma parseLines_cons (st : ParseState) (l : String) (ls : List String) :
    parseLines st (l :: ls) = parseLines (processLine st l) ls := by
  simp [parseLines]


lemma get?_append_singleton {α : Type} (l : List α) (a : α) (j : Nat) :
    (l ++ [a]).get? j =
      if j < l.length then l.get? j else if j = l.length then some a else none := by
  by_cases h1 : j < l.length
  · rw [List.get?_append h1, if_pos h1]
  · rw [if_neg h1]
    by_cases h2 : j = l.length
    · subst h2
      rw [if_pos rfl]
      exact List.get?_concat_length ..
    · rw [if_neg h2]
      apply List.get?_eq_none.mpr
      simp only [List.length_append, List.length_cons, List.length_nil]
      omega

lemma mapOK_empty : MapOK {} := by
  intro u i h
  simp [assocGet] at h

lemma parseLines_mapOK (ls : List String) (st : ParseState) (h : MapOK st) :
    MapOK (parseLines st ls) :=
  parseLines_invariant ls (fun s l _ hm => mapOK_processLine s l hm) st h

lemma processLine_noT_except (st : ParseState) (l : String) (t : String) (i₁ : Nat)
    (hmapOK : MapOK st)
    (h : ∀ j r, j ≠ i₁ → st.records.get? j = some r → r.tool ≠ t)
    (hcall : ∀ rest, matchToolCall l ≠ some (t, rest)) :
    ∀ j r, j ≠ i₁ → (processLine st l).records.get? j = some r → r.tool ≠ t := by
  rcases processLine_shape st l with
    ⟨u, js, v, hc, hj, heq⟩ | ⟨u, jm, f, js, hm, hf, hmark, heq⟩ | heq | heq
  · intro j r hji hg
    have hu : u ≠ t := by
      intro he
      subst he
      exact hcall js hc
    have hrec : (processLine st l).records = st.records ++ [{ tool := u, input := v }] := by
      rw [heq]
    rw [hrec, get?_append_singleton] at hg
    by_cases h1 : j < st.records.length
    · rw [if_pos h1] at hg
      exact h j r hji hg
    · rw [if_neg h1] at hg
      by_cases h2 : j = st.records.length
      · rw [if_pos h2] at hg
        have : r = { tool := u, input := v } := (Option.some.inj hg).symm
        subst this
        exact hu
      · rw [if_neg h2] at hg
        exact Option.noConfusion hg
  · rw [heq]
    intro j r hji hg
    by_cases hjm : j = jm
    · subst hjm
      rw [listModify_get_self] at hg
      cases hr₀ : st.records.get? j with
      | none => rw [hr₀] at hg; exact Option.noConfusion hg
      | some r₀ =>
          rw [hr₀] at hg
          have : r = f r₀ := (Option.some.inj hg).symm
          subst this
          rw [hf r₀]
          exact h j r₀ hji hr₀
    · rw [listModify_get_ne _ _ _ _ hjm] at hg
      exact h j r hji hg
  · rw [heq]; exact h
  · rw [heq]; exact h

lemma parseLines_noT (t : String) (A : List String)
    (hA : ∀ l ∈ A, ∀ rest, matchToolCall l ≠ some (t, rest)) (st : ParseState)
    (h0 : MapOK st ∧ ∀ j r, st.records.get? j = some r → r.tool ≠ t) :
    MapOK (parseLines st A) ∧
      ∀ j r, (parseLines st A).records.get? j = some r → r.tool ≠ t := by
  refine parseLines_invariant A
    (P := fun s => MapOK s ∧ ∀ j r, s.records.get? j = some r → r.tool ≠ t)
    (fun s l hl hp => ?_) st h0
  refine ⟨mapOK_processLine s l hp.1, fun j r hg => ?_⟩
  by_cases hji : j = (processLine s l).records.length
  · subst hji
    rw [List.get?_eq_none.mpr (le_refl _)] at hg
    exact Option.noConfusion hg
  · exact processLine_noT_except s l t (processLine s l).records.length hp.1
      (fun j' r' _ hg' => hp.2 j' r' hg') (hA l hl) j r hji hg


lemma parseLines_pair (t : String) (A B C : List String) (lineCall lineRes : String)
    (js₁ js₂ : String) (v rv : JValue)
    (hA : ∀ l ∈ A, noMarkerFor t l)
    (hB : ∀ l ∈ B, noMarkerFor t l)
    (hC : ∀ l ∈ C, noMarkerFor t l)
    (hc : matchToolCall lineCall = some (t, js₁)) (hj : jsonParse js₁ = some v)
    (hrc : matchToolCall lineRes = none)
    (hr : matchToolResult lineRes = some (t, js₂)) (hrj : jsonParse js₂ = some rv) :
    (parseLines {} (A ++ lineCall :: (B ++ lineRes :: C))).records.get?
        (parseLines {} A).records.length =
      some { tool := t, input := v,
             durationMs := jsOrZero (objField rv "durationMs"), success := true } ∧
    ∀ j r, j ≠ (parseLines {} A).records.length →
      (parseLines {} (A ++ lineCall :: (B ++ lineRes :: C))).records.get? j = some r →
      r.tool ≠ t := by
  have hA0 := parseLines_noT t A (fun l hl => (hA l hl).1) {}
    ⟨mapOK_empty, by intro j r hg; simp [ParseState.records] at hg⟩
  set SA := parseLines {} A with hSA
  set i₁ := SA.records.length with hi₁
  set rec₁ : ToolCallRecord := { tool := t, input := v } with hrec₁def
  have hsplit : parseLines {} (A ++ lineCall :: (B ++ lineRes :: C)) =
      parseLines (processLine SA lineCall) (B ++ lineRes :: C) := by
    rw [parseLines_append, parseLines_cons]
  have heq₁ : processLine SA lineCall =
      { SA with records := SA.records ++ [rec₁],
                callMap := assocSet SA.callMap t SA.records.length } := by
    simp [processLine, hc, hj, hrec₁def]
  have hm₁ : MapOK (processLine SA lineCall) := mapOK_processLine _ _ hA0.1
  have hrec₁ : (processLine SA lineCall).records.get? i₁ = some rec₁ := by
    have : (processLine SA lineCall).records = SA.records ++ [rec₁] := by rw [heq₁]
    rw [this, hi₁]
    exact List.get?_concat_length ..
  have hmap₁ : assocGet (processLine SA lineCall).callMap t = some i₁ := by
    have : (processLine SA lineCall).callMap = assocSet SA.callMap t SA.records.length := by
      rw [heq₁]
    rw [this, hi₁]
    exact assocGet_assocSet_self ..
  have hno₁ : ∀ j r, j ≠ i₁ → (processLine SA lineCall).records.get? j = some r →
      r.tool ≠ t := by
    intro j r hji hg
    have hrec : (processLine SA lineCall).records = SA.records ++ [rec₁] := by rw [heq₁]
    rw [hrec, get?_append_singleton] at hg
    by_cases h1 : j < SA.records.length
    · rw [if_pos h1] at hg
      exact hA0.2 j r hg
    · rw [if_neg h1, if_neg (by rw [← hi₁] at *; omega)] at hg
      exact Option.noConfusion hg
  have hBrun := parseLines_invariant
    (P := fun s => MapOK s ∧ s.records.get? i₁ = some rec₁ ∧
      assocGet s.callMap t = some i₁ ∧
      (∀ j r, j ≠ i₁ → s.records.get? j = some r → r.tool ≠ t)) B
    (fun s l hl hp => by
      refine ⟨mapOK_processLine s l hp.1, ?_, ?_, ?_⟩
      · exact processLine_get_preserved s l i₁ rec₁ hp.1 hp.2.1
          (fun _ => (hB l hl).2)
      · rw [processLine_map_of_no_call s l t (hB l hl).1]
        exact hp.2.2.1
      · exact processLine_noT_except s l t i₁ hp.1 hp.2.2.2 (hB l hl).1)
    (processLine SA lineCall) ⟨hm₁, hrec₁, hmap₁, hno₁⟩
  set SB := parseLines (processLine SA lineCall) B with hSB
  have hsplit₂ : parseLines (processLine SA lineCall) (B ++ lineRes :: C) =
      parseLines (processLine SB lineRes) C := by
    rw [parseLines_append, parseLines_cons]
  set fR : ToolCallRecord → ToolCallRecord := fun r =>
    { r with durationMs := jsOrZero (objField rv "durationMs"), success := true } with hfR
  have heqR : processLine SB lineRes = { SB with records := listModify SB.records i₁ fR } := by
    simp [processLine, hrc, hr, hrj, hBrun.2.2.1, hfR]
  have hm₂ : MapOK (processLine SB lineRes) := mapOK_processLine _ _ hBrun.1
  have hrec₂ : (processLine SB lineRes).records.get? i₁ = some (fR rec₁) := by
    have : (processLine SB lineRes).records = listModify SB.records i₁ fR := by rw [heqR]
    rw [this, listModify_get_self, hBrun.2.1]
    rfl
  have hmap₂ : assocGet (processLine SB lineRes).callMap t = some i₁ := by
    have : (processLine SB lineRes).callMap = SB.callMap := by rw [heqR]
    rw [this]
    exact hBrun.2.2.1
  have hno₂ : ∀ j r, j ≠ i₁ → (processLine SB lineRes).records.get? j = some r →
      r.tool ≠ t := by
    intro j r hji hg
    have : (processLine SB lineRes).records = listModify SB.records i₁ fR := by rw [heqR]
    rw [this, listModify_get_ne _ _ _ _ hji] at hg
    exact hBrun.2.2.2 j r hji hg
  have hCrun := parseLines_invariant
    (P := fun s => MapOK s ∧ s.records.get? i₁ = some (fR rec₁) ∧
      assocGet s.callMap t = some i₁ ∧
      (∀ j r, j ≠ i₁ → s.records.get? j = some r → r.tool ≠ t)) C
    (fun s l hl hp => by
      refine ⟨mapOK_processLine s l hp.1, ?_, ?_, ?_⟩
      · exact processLine_get_preserved s l i₁ (fR rec₁) hp.1 hp.2.1
          (fun _ => (hC l hl).2)
      · rw [processLine_map_of_no_call s l t (hC l hl).1]
        exact hp.2.2.1
      · exact processLine_noT_except s l t i₁ hp.1 hp.2.2.2 (hC l hl).1)
    (processLine SB lineRes) ⟨hm₂, hrec₂, hmap₂, hno₂⟩
  rw [hsplit, hsplit₂]
  exact ⟨hCrun.2.1, hCrun.2.2.2⟩


lemma parseLines_call_default (t : String) (A B : List String) (lineCall : String)
    (js : String) (v : JValue)
    (hc : matchToolCall lineCall = some (t, js)) (hj : jsonParse js = some v)
    (hB : ∀ l ∈ B, noResultOrErrorFor t l) :
    (parseLines {} (A ++ lineCall :: B)).records.get? (parseLines {} A).records.length =
      some { tool := t, input := v } := by
  set SA := parseLines {} A with hSA
  set i₁ := SA.records.length with hi₁
  set rec₁ : ToolCallRecord := { tool := t, input := v } with hrec₁def
  have hmA : MapOK SA := parseLines_mapOK A {} mapOK_empty
  have hsplit : parseLines {} (A ++ lineCall :: B) =
      parseLines (processLine SA lineCall) B := by
    rw [parseLines_append, parseLines_cons]
  have heq₁ : processLine SA lineCall =
      { SA with records := SA.records ++ [rec₁],
                callMap := assocSet SA.callMap t SA.records.length } := by
    simp [processLine, hc, hj, hrec₁def]
  have hm₁ : MapOK (processLine SA lineCall) := mapOK_processLine _ _ hmA
  have hrec₁ : (processLine SA lineCall).records.get? i₁ = some rec₁ := by
    have hre : (processLine SA lineCall).records = SA.records ++ [rec₁] := by rw [heq₁]
    rw [hre, hi₁]
    exact List.get?_concat_length ..
  have hBrun := parseLines_invariant
    (P := fun s => MapOK s ∧ s.records.get? i₁ = some rec₁) B
    (fun s l hl hp =>
      ⟨mapOK_processLine s l hp.1,
        processLine_get_preserved s l i₁ rec₁ hp.1 hp.2 (fun _ => hB l hl)⟩)
    (processLine SA lineCall) ⟨hm₁, hrec₁⟩
  rw [hsplit]
  exact hBrun.2

lemma parseLines_aliasing (t : String) (A B C : List String) (lineCall₁ lineCall₂ : String)
    (js₁ js₂ : String) (v₁ v₂ : JValue)
    (hB : ∀ l ∈ B, noResultOrErrorFor t l)
    (hc₁ : matchToolCall lineCall₁ = some (t, js₁)) (hj₁ : jsonParse js₁ = some v₁)
    (hc₂ : matchToolCall lineCall₂ = some (t, js₂)) (hj₂ : jsonParse js₂ = some v₂) :
    (parseLines {} (A ++ lineCall₁ :: (B ++ lineCall₂ :: C))).records.get?
        (parseLines {} A).records.length = some { tool := t, input := v₁ } := by
  set SA := parseLines {} A with hSA
  set i₁ := SA.records.length with hi₁
  set rec₁ : ToolCallRecord := { tool := t, input := v₁ } with hrec₁def
  have hmA : MapOK SA := parseLines_mapOK A {} mapOK_empty
  have hsplit : parseLines {} (A ++ lineCall₁ :: (B ++ lineCall₂ :: C)) =
      parseLines (processLine SA lineCall₁) (B ++ lineCall₂ :: C) := by
    rw [parseLines_append, parseLines_cons]
  have heq₁ : processLine SA lineCall₁ =
      { SA with records := SA.records ++ [rec₁],
                callMap := assocSet SA.callMap t SA.records.length } := by
    simp [processLine, hc₁, hj₁, hrec₁def]
  have hm₁ : MapOK (processLine SA lineCall₁) := mapOK_processLine _ _ hmA
  have hrec₁ : (processLine SA lineCall₁).records.get? i₁ = some rec₁ := by
    have hre : (processLine SA lineCall₁).records = SA.records ++ [rec₁] := by rw [heq₁]
    rw [hre, hi₁]
    exact List.get?_concat_length ..
  have hBrun := parseLines_invariant
    (P := fun s => MapOK s ∧ s.records.get? i₁ = some rec₁) B
    (fun s l hl hp =>
      ⟨mapOK_processLine s l hp.1,
        processLine_get_preserved s l i₁ rec₁ hp.1 hp.2 (fun _ => hB l hl)⟩)
    (processLine SA lineCall₁) ⟨hm₁, hrec₁⟩
  set SB := parseLines (processLine SA lineCall₁) B with hSB
  have hsplit₂ : parseLines (processLine SA lineCall₁) (B ++ lineCall₂ :: C) =
      parseLines (processLine SB lineCall₂) C := by
    rw [parseLines_append, parseLines_cons]
  have heq₂ : processLine SB lineCall₂ =
      { SB with records := SB.records ++ [{ tool := t, input := v₂ }],
                callMap := assocSet SB.callMap t SB.records.length } := by
    simp [processLine, hc₂, hj₂]
  have hm₂ : MapOK (processLine SB lineCall₂) := mapOK_processLine _ _ hBrun.1
  have hi₁lt : i₁ < SB.records.length := get?_lt_length hBrun.2
  have hrec₂ : (processLine SB lineCall₂).records.get? i₁ = some rec₁ := by
    have hre : (processLine SB lineCall₂).records =
        SB.records ++ [{ tool := t, input := v₂ }] := by rw [heq₂]
    rw [hre, List.get?_append hi₁lt]
    exact hBrun.2
  have hmapne : assocGet (processLine SB lineCall₂).callMap t ≠ some i₁ := by
    have hcm : (processLine SB lineCall₂).callMap =
        assocSet SB.callMap t SB.records.length := by rw [heq₂]
    rw [hcm, assocGet_assocSet_self]
    intro hcon
    have := Option.some.inj hcon
    omega
  have hCrun := parseLines_invariant
    (P := fun s => MapOK s ∧ s.records.get? i₁ = some rec₁ ∧
      assocGet s.callMap t ≠ some i₁) C
    (fun s l _ hp =>
      ⟨mapOK_processLine s l hp.1,
        processLine_get_preserved s l i₁ rec₁ hp.1 hp.2.1
          (fun hcon => absurd hcon hp.2.2),
        processLine_map_ne s l t i₁ (get?_lt_length hp.2.1) hp.2.2⟩)
    (processLine SB lineCall₂) ⟨hm₂, hrec₂, hmapne⟩
  rw [hsplit, hsplit₂]
  exact hCrun.2.1


/-- C7: line-by-line trace parsing. (1)–(2) the clean output is exactly the
non-marker lines, joined and trimmed — every marker line, well-formed or
malformed, is stripped; (3) a call-start marker whose result/error marker
never arrives leaves its record at the creation defaults (success false,
durationMs 0, output null); (4)–(6) a marker line whose JSON suffix fails
to parse changes nothing; (7) such a line can be deleted from the stream
without changing the parse, so parsing continues; (8) a call-start
followed later by a matching result marker yields exactly one record for
the tool, success true, carrying the marker's durationMs through
`durationMs || 0`; (9) that value is the marker's own durationMs whenever
the field is a number; (10)–(11) the spec's two concrete scenarios. -/
theorem parseToolCalls_spec :
    (∀ ls : List String,
      (parseLines {} ls).cleanLines = ls.filter (fun l => !isMarkerLine l)) ∧
    (∀ output : String,
      (parseToolCallsFromOutput output).1 =
        trimString (joinNL ((splitLines output).filter (fun l => !isMarkerLine l)))) ∧
    (∀ (A B : List String) (lineCall t js : String) (v : JValue),
      matchToolCall lineCall = some (t, js) → jsonParse js = some v →
      (∀ l ∈ B, noResultOrErrorFor t l) →
      (parseLines {} (A ++ lineCall :: B)).records.get? (parseLines {} A).records.length =
        some { tool := t, input := v }) ∧
    (∀ (st : ParseState) (l t js : String), matchToolCall l = some (t, js) →
      jsonParse js = none → processLine st l = st) ∧
    (∀ (st : ParseState) (l t js : String), matchToolCall l = none →
      matchToolResult l = some (t, js) → jsonParse js = none → processLine st l = st) ∧
    (∀ (st : ParseState) (l t js : String), matchToolCall l = none →
      matchToolResult l = none → matchToolError l = some (t, js) → jsonParse js = none →
      processLine st l = st) ∧
    (∀ (ls₁ ls₂ : List String) (l t js : String), matchToolCall l = some (t, js) →
      jsonParse js = none → parseLines {} (ls₁ ++ l :: ls₂) = parseLines {} (ls₁ ++ ls₂)) ∧
    (∀ (t : String) (A B C : List String) (lineCall lineRes js₁ js₂ : String)
        (v rv : JValue),
      (∀ l ∈ A, noMarkerFor t l) → (∀ l ∈ B, noMarkerFor t l) →
      (∀ l ∈ C, noMarkerFor t l) →
      matchToolCall lineCall = some (t, js₁) → jsonParse js₁ = some v →
      matchToolCall lineRes = none → matchToolResult lineRes = some (t, js₂) →
      jsonParse js₂ = some rv →
      (parseLines {} (A ++ lineCall :: (B ++ lineRes :: C))).records.get?
          (parseLines {} A).records.length =
        some { tool := t, input := v,
               durationMs := jsOrZero (objField rv "durationMs"), success := true } ∧
      ∀ j r, j ≠ (parseLines {} A).records.length →
        (parseLines {} (A ++ lineCall :: (B ++ lineRes :: C))).records.get? j = some r →
        r.tool ≠ t) ∧
    (∀ (rv : JValue) (d : Int), objField rv "durationMs" = some (.num d) →
      jsOrZero (objField rv "durationMs") = .num d) ∧
    (parseToolCallsFromOutput
        "[TOOL_CALL:t] \x7b\x7d\n[TOOL_RESULT:t] \x7b\"durationMs\":5,\"success\":true\x7d\nhello" =
      ("hello", [{ tool := "t", input := .obj [], output := none, durationMs := .num 5,
                   success := true, error := none }])) ∧
    (parseToolCallsFromOutput "[TOOL_CALL:x]not-json\nnormal line" =
      ("normal line", [])) := by
  refine ⟨?_, ?_, ?_, ?_, ?_, ?_, ?_, ?_, ?_, rfl, rfl⟩
  · intro ls
    have h := parseLines_cleanLines ls {}
    simpa using h
  · intro output
    show trimString (joinNL (parseLines {} (splitLines output)).cleanLines) = _
    rw [parseLines_cleanLines]
    simp
  · intro A B lineCall t js v hc hj hB
    exact parseLines_call_default t A B lineCall js v hc hj hB
  · intro st l t js hc hj
    simp [processLine, hc, hj]
  · intro st l t js hc hr hj
    simp [processLine, hc, hr, hj]
  · intro st l t js hc hr he hj
    simp [processLine, hc, hr, he, hj]
  · intro ls₁ ls₂ l t js hc hj
    rw [parseLines_append, parseLines_cons, parseLines_append]
    congr 1
    simp [processLine, hc, hj]
  · intro t A B C lineCall lineRes js₁ js₂ v rv hA hB hC hc hj hrc hr hrj
    exact parseLines_pair t A B C lineCall lineRes js₁ js₂ v rv hA hB hC hc hj hrc hr hrj
  · intro rv d h
    rw [h]
    by_cases hd : d = 0
    · simp [jsOrZero, jsFalsy, hd]
    · simp [jsOrZero, jsFalsy, hd]

/-- C7 witness: the unmatched-call conjunct applied at one unrelated line
before the call marker and one after. -/
theorem parseToolCalls_spec_witness :
    (parseLines {} (["x"] ++ "[TOOL_CALL:t] 3" :: ["y"])).records.get?
        (parseLines {} ["x"]).records.length =
      some { tool := "t", input := .num 3, output := none, durationMs := .num 0,
             success := false, error := none } := by
  have hno : ∀ l ∈ ["y"], noResultOrErrorFor "t" l := by
    intro l hl
    have hy : l = "y" := by simpa using hl
    subst hy
    constructor
    · intro rest h
      rw [show matchToolResult "y" = none from rfl] at h
      exact Option.noConfusion h
    · intro rest h
      rw [show matchToolError "y" = none from rfl] at h
      exact Option.noConfusion h
  exact parseToolCalls_spec.2.2.1 ["x"] ["y"] "[TOOL_CALL:t] 3" "t" "3" (.num 3) rfl rfl hno

/-- C9: the pending-record map is keyed by tool name alone, so when two
call-start markers for the same tool both precede their result markers,
later markers can only reach the record of the second call-start: the
first record keeps success false, durationMs 0 and output null whatever
follows the second call-start — shown concretely in the second conjunct,
where a matching result marker for the tool appears in the output yet
only the second record is updated. -/
theorem parse_aliasing_by_tool_name :
    (∀ (A B C : List String) (lineCall₁ lineCall₂ t js₁ js₂ : String) (v₁ v₂ : JValue),
      (∀ l ∈ B, noResultOrErrorFor t l) →
      matchToolCall lineCall₁ = some (t, js₁) → jsonParse js₁ = some v₁ →
      matchToolCall lineCall₂ = some (t, js₂) → jsonParse js₂ = some v₂ →
      (parseLines {} (A ++ lineCall₁ :: (B ++ lineCall₂ :: C))).records.get?
          (parseLines {} A).records.length =
        some { tool := t, input := v₁, output := none, durationMs := .num 0,
               success := false, error := none }) ∧
    (parseToolCallsFromOutput
        "[TOOL_CALL:t] 1\n[TOOL_CALL:t] 2\n[TOOL_RESULT:t] \x7b\"durationMs\":7\x7d" =
      ("", [{ tool := "t", input := .num 1, output := none, durationMs := .num 0,
              success := false, error := none },
            { tool := "t", input := .num 2, output := none, durationMs := .num 7,
              success := true, error := none }])) := by
  constructor
  · intro A B C lineCall₁ lineCall₂ t js₁ js₂ v₁ v₂ hB hc₁ hj₁ hc₂ hj₂
    exact parseLines_aliasing t A B C lineCall₁ lineCall₂ js₁ js₂ v₁ v₂ hB hc₁ hj₁ hc₂ hj₂
  · rfl

/-- C9 witness: the general aliasing conjunct at a concrete output whose
result marker follows two call markers for the same tool. -/
theorem parse_aliasing_by_tool_name_witness :
    (parseLines {} ([] ++ "[TOOL_CALL:t] 1" ::
        ([] ++ "[TOOL_CALL:t] 2" :: ["[TOOL_RESULT:t] \x7b\"durationMs\":7\x7d"]))).records.get?
        (parseLines {} []).records.length =
      some { tool := "t", input := .num 1, output := none, durationMs := .num 0,
             success := false, error := none } := by
  exact parse_aliasing_by_tool_name.1 [] []
    ["[TOOL_RESULT:t] \x7b\"durationMs\":7\x7d"]
    "[TOOL_CALL:t] 1" "[TOOL_CALL:t] 2" "t" "1" "2" (.num 1) (.num 2)
    (fun l hl => absurd hl (List.not_mem_nil l)) rfl rfl rfl rfl


end Stampede
